import Mathlib

/-!
# Mini-isolation dictionary tools

A shallow embedding of `plugins/MiniIsoDictTools.cc`: the two `evaluate` methods
`DictElectronMiniIsolation::evaluate` and `DictMuonMiniIsolation::evaluate`, with the
collaborators they call (the isolation computer, the effective-area table, the rho
helper and the output dictionary) kept as explicit data.

## Conventions

* A C++ `double` is an exact rational. Every `double` operation of the two methods
  (`+`, `-`, `*`, `std::pow(_, 2)`, `std::min`, `std::max`, division by a non-zero
  divisor) is the exact operation; rounding of `double` arithmetic is not modelled.
* The one division whose divisor may be zero, `(absIsoCharged+neuIsoAbs)/candpt`,
  returns a `Double`, which is either a finite number or `nonFinite` (an infinity or
  a NaN).
* `const float candpt` is a single-precision value: the conversion from `double` is
  `toFloat`, IEEE 754 binary32 rounding to nearest, ties to even.
* `edm::Ptr` / `edm::Ref` / `const edm::Event*` are `Option`s: `none` is the null
  reference.
* `m_isoComp` is `mutable`: `evaluate` returns the computer it leaves behind, and the
  computer carries the list of the calls it has received.
-/

namespace TTWAnalysis

/-! ## Numbers -/

/-- Library function `std::max(a, b)`, that is `(a < b) ? b : a`. -/
def stdMax (a b : ℚ) : ℚ := if a < b then b else a

/-- Library function `std::min(a, b)`, that is `(b < a) ? b : a`. -/
def stdMin (a b : ℚ) : ℚ := if b < a then b else a

/-- A `double` that is handed to the dictionary: a finite number, or an infinity or NaN. -/
inductive Double where
  | fin (q : ℚ)
  | nonFinite
  deriving DecidableEq, Repr

/-- A single-precision `float`: a finite number, or an infinity reached by overflow. -/
inductive CFloat where
  | finite (q : ℚ)
  | infinite
  deriving DecidableEq, Repr

/-- Integer powers of two, as rationals. -/
def pow2 (k : ℤ) : ℚ :=
  if 0 ≤ k then ((2 ^ k.toNat : ℕ) : ℚ) else 1 / ((2 ^ (-k).toNat : ℕ) : ℚ)

/-- Rounding of a rational to the nearest integer, ties going to the even one. -/
def roundHalfEven (r : ℚ) : ℤ :=
  let f : ℤ := r.floor
  let d : ℚ := r - f
  if d < 1 / 2 then f else if 1 / 2 < d then f + 1 else if f % 2 = 0 then f else f + 1

/-- Binary logarithm of a natural number, rounded down, by repeated halving. -/
def log2Fuel : ℕ → ℕ → ℕ
  | 0, _ => 0
  | fuel + 1, n => if n < 2 then 0 else log2Fuel fuel (n / 2) + 1

/-- Binary logarithm of a natural number, rounded down (`0` at `0`). -/
def log2 (n : ℕ) : ℕ := log2Fuel n n

/-- Conversion of a `double` to `float` (IEEE 754 binary32: 24 significant bits, least
exponent `-126`, round to nearest with ties to even, overflow to infinity). -/
def toFloat (x : ℚ) : CFloat :=
  if x = 0 then .finite 0 else
  let a : ℚ := if x < 0 then -x else x
  let k : ℤ := (log2 a.num.natAbs : ℤ) - (log2 a.den : ℤ)
  let e0 : ℤ := if pow2 k ≤ a then k else k - 1
  let e : ℤ := if e0 < -126 then -126 else e0
  let ulp : ℚ := pow2 (e - 23)
  let r : ℚ := (roundHalfEven (a / ulp) : ℚ) * ulp
  if pow2 128 ≤ r then .infinite else .finite (if x < 0 then -r else r)

/-- Division of a finite `double` by a `float` (promoted to `double`): not a finite number
when the divisor is zero, zero when the divisor is an infinity. -/
def divByFloat (a : ℚ) : CFloat → Double
  | .finite c => if c = 0 then .nonFinite else .fin (a / c)
  | .infinite => .fin 0

/-! ## Collaborators -/

/-- Modelled from the spec: `TTWAnalysis::Dict` (`interface/DictTool.h` is not among the
sources), "an ordered mapping from variable name (string) to numeric value". -/
abbrev Dict := List (String × Double)

/-- Modelled from the spec: `Dict::add` appends one named value to the record. -/
def Dict.add (d : Dict) (name : String) (value : Double) : Dict := d ++ [(name, value)]

/-- The value recorded under a name (the first one, were a name recorded twice). -/
def Dict.get (d : Dict) (name : String) : Option Double := List.lookup name d

/-- The names of a record, in the order in which they were added. -/
def Dict.keys (d : Dict) : List String := d.map Prod.fst

/-- An `edm::Event`, as far as the two methods read it. -/
structure Event where
  id : ℕ
  rho : ℚ
  deriving DecidableEq, Repr

/-- Modelled from the spec: `DictRhoHelper::getRho` (`Helpers.h` is not among the sources)
gives the event's pileup density, `EventContext.currentPileupDensity()`. -/
def getRho (event : Event) : ℚ := event.rho

/-- A `reco::SuperCluster`, as far as `evaluate` reads it. -/
structure SuperCluster where
  eta : ℚ
  deriving DecidableEq, Repr

/-- A `pat::Electron`, as far as `evaluate` reads it; `superCluster` is a reference that
may be null. -/
structure Electron where
  pt : ℚ
  isEB : Bool
  superCluster : Option SuperCluster
  deriving DecidableEq, Repr

/-- A `pat::Muon`, as far as `evaluate` reads it. -/
structure Muon where
  pt : ℚ
  eta : ℚ
  deriving DecidableEq, Repr

/-- The enumeration `heppy::IsolationComputer::SelfVetoPolicy`; the sources name only
`selfVetoNone`. -/
inductive SelfVetoPolicy where
  | selfVetoNone
  | selfVetoAll
  | selfVetoFirst
  deriving DecidableEq, Repr

/-- The sum methods of `heppy::IsolationComputer` that the two methods call. -/
inductive SumKind where
  | chargedAbsIso
  | puAbsIso
  | photonAbsIsoRaw
  | neutralHadAbsIsoRaw
  | photonAbsIsoWeighted
  | neutralHadAbsIsoWeighted
  | neutralAbsIsoRaw
  | neutralAbsIsoWeighted
  deriving DecidableEq, Repr

/-- One call of a sum method, with its arguments by position:
`(cand, dR, innerR, threshold, selfVeto)`; `selfVeto` is `none` when the call leaves the
fifth argument to the callee's default. -/
structure Query (Cand : Type) where
  kind : SumKind
  cand : Cand
  dR : ℚ
  innerR : ℚ
  threshold : ℚ
  selfVeto : Option SelfVetoPolicy
  deriving DecidableEq, Repr

/-- A call received by the isolation computer. -/
inductive Call (Cand : Type) where
  | updateEvent (event : Option Event)
  | sum (q : Query Cand)
  deriving DecidableEq, Repr

/-- The `heppy::IsolationComputer` member `m_isoComp`. Its implementation is not among the
sources: `answer` is what a sum method returns, given the event the computer holds;
`event` is the event last handed over by `updateEvent`; `calls` lists the calls received,
oldest first. -/
structure IsolationComputer (Cand : Type) where
  answer : Option Event → Query Cand → ℚ
  event : Option Event
  calls : List (Call Cand)

/-- Method `m_isoComp.updateEvent(event)`. -/
def IsolationComputer.updateEvent {Cand : Type} (c : IsolationComputer Cand)
    (event : Option Event) : IsolationComputer Cand :=
  { c with event := event, calls := c.calls ++ [Call.updateEvent event] }

/-- A sum method: the value returned, and the computer with the call recorded. -/
def IsolationComputer.sum {Cand : Type} (c : IsolationComputer Cand) (q : Query Cand) :
    ℚ × IsolationComputer Cand :=
  (c.answer c.event q, { c with calls := c.calls ++ [Call.sum q] })

/-- The `EffectiveAreas` member `m_ea`: the table read from the configured file. -/
structure EffectiveAreas where
  getEffectiveArea : ℚ → ℚ

/-! ## The lambda `addNeutralAbsRel` -/

/-- The lambda `addNeutralAbsRel` of both methods, with its captures `ret`,
`absIsoCharged` and `candpt` as arguments. -/
def addNeutralAbsRel (ret : Dict) (absIsoCharged : ℚ) (candpt : CFloat)
    (neuIsoAbs : ℚ) (postfix_ : String) : Dict :=
  let ret := ret.add ("miniIso_AbsNeutral_" ++ postfix_) (.fin neuIsoAbs)
  let ret := ret.add ("miniIso_Abs_" ++ postfix_) (.fin (absIsoCharged + neuIsoAbs))
  ret.add ("miniIso_Rel_" ++ postfix_) (divByFloat (absIsoCharged + neuIsoAbs) candpt)

/-! ## `DictElectronMiniIsolation` -/

/-- The class `DictElectronMiniIsolation`: its two data members. -/
structure DictElectronMiniIsolation where
  m_isoComp : IsolationComputer Electron
  m_ea : EffectiveAreas

/-- The local `double`s of the electron `evaluate`. -/
structure ElectronSums where
  absIsoCharged : ℚ
  isoPhotRaw : ℚ
  isoNHadRaw : ℚ
  absIsoPU : ℚ
  isoNeutralRaw : ℚ
  isoNeutralWeights : ℚ
  isoNeutralRhoArea : ℚ
  isoNeutralDeltaBeta : ℚ
  deriving DecidableEq, Repr

/-- The test `cand.isNonnull() && cand->superCluster().isNonnull()`, giving the two
referenced objects when it holds. -/
def DictElectronMiniIsolation.refs (cand : Option Electron) :
    Option (Electron × SuperCluster) :=
  match cand with
  | none => none
  | some candR =>
    match candR.superCluster with
    | none => none
    | some sc => some (candR, sc)

/-- The local `const bool valid` of the electron `evaluate`. -/
def DictElectronMiniIsolation.valid (cand : Option Electron) : Bool :=
  (DictElectronMiniIsolation.refs cand).isSome

/-- Method `DictElectronMiniIsolation::evaluate`: the record, and the object with the
computer as the call leaves it. The two operands of the sum `isoNeutralWeights` are
queried in the order in which they are written. -/
def DictElectronMiniIsolation.evaluate (self : DictElectronMiniIsolation)
    (cand : Option Electron) (event : Option Event) : Dict × DictElectronMiniIsolation :=
  let c0 := self.m_isoComp.updateEvent event
  let refs := DictElectronMiniIsolation.refs cand
  let rho : ℚ := match event with
    | some ev => getRho ev
    | none => 0
  let eta : ℚ := match refs with
    | some (_, sc) => sc.eta
    | none => 0
  let outerR : ℚ := match refs with
    | some (candR, _) => 10 / stdMin (stdMax candR.pt 50) 200
    | none => 0
  let r : ElectronSums × IsolationComputer Electron :=
    match refs with
    | none => (⟨-1, -1, -1, -1, -1, -1, -1, -1⟩, c0)
    | some (candR, _) =>
      let innerRPh : ℚ := if !candR.isEB then 0.08 else 0
      let innerRCh : ℚ := if !candR.isEB then 0.015 else 0
      let q1 := c0.sum ⟨.chargedAbsIso, candR, outerR, innerRCh, 0, some .selfVetoNone⟩
      let absIsoCharged := q1.1
      let q2 := q1.2.sum ⟨.puAbsIso, candR, outerR, innerRCh, 0, some .selfVetoNone⟩
      let absIsoPU := q2.1
      let q3 := q2.2.sum ⟨.photonAbsIsoRaw, candR, outerR, innerRPh, 0, some .selfVetoNone⟩
      let isoPhotRaw := q3.1
      let q4 := q3.2.sum ⟨.neutralHadAbsIsoRaw, candR, outerR, 0, 0, some .selfVetoNone⟩
      let isoNHadRaw := q4.1
      let isoNeutralRaw := isoPhotRaw + isoNHadRaw
      let q5 := q4.2.sum ⟨.photonAbsIsoWeighted, candR, outerR, innerRPh, 0, some .selfVetoNone⟩
      let q6 := q5.2.sum ⟨.neutralHadAbsIsoWeighted, candR, outerR, 0, 0, some .selfVetoNone⟩
      let isoNeutralWeights := q5.1 + q6.1
      let isoNeutralRhoArea :=
        stdMax 0 (isoNeutralRaw - rho * self.m_ea.getEffectiveArea eta * (outerR / 0.3) ^ 2)
      let isoNeutralDeltaBeta := stdMax 0 (isoNeutralRaw - 0.5 * absIsoPU)
      (⟨absIsoCharged, isoPhotRaw, isoNHadRaw, absIsoPU, isoNeutralRaw, isoNeutralWeights,
          isoNeutralRhoArea, isoNeutralDeltaBeta⟩, q6.2)
  let s := r.1
  let ret : Dict := []
  let ret := ret.add "miniIso_R" (.fin outerR)
  let ret := ret.add "miniIso_AbsCharged" (.fin s.absIsoCharged)
  let ret := ret.add "miniIso_AbsPho" (.fin s.isoPhotRaw)
  let ret := ret.add "miniIso_AbsNHad" (.fin s.isoNHadRaw)
  let ret := ret.add "miniIso_AbsPU" (.fin s.absIsoPU)
  let candpt : CFloat := toFloat (match refs with
    | some (candR, _) => candR.pt
    | none => -1)
  let ret := addNeutralAbsRel ret s.absIsoCharged candpt s.isoNeutralWeights "weights"
  let ret := addNeutralAbsRel ret s.absIsoCharged candpt s.isoNeutralRaw "raw"
  let ret := addNeutralAbsRel ret s.absIsoCharged candpt s.isoNeutralRhoArea "rhoArea"
  let ret := addNeutralAbsRel ret s.absIsoCharged candpt s.isoNeutralDeltaBeta "deltaBeta"
  (ret, { self with m_isoComp := r.2 })

/-! ## `DictMuonMiniIsolation` -/

/-- The class `DictMuonMiniIsolation`: its two data members. -/
structure DictMuonMiniIsolation where
  m_isoComp : IsolationComputer Muon
  m_ea : EffectiveAreas

/-- The local `double`s of the muon `evaluate`. -/
structure MuonSums where
  absIsoCharged : ℚ
  absIsoPU : ℚ
  isoNeutralRaw : ℚ
  isoNeutralWeights : ℚ
  isoNeutralRhoArea : ℚ
  isoNeutralDeltaBeta : ℚ
  deriving DecidableEq, Repr

/-- Method `DictMuonMiniIsolation::evaluate`: the record, and the object with the computer
as the call leaves it. The local `valid` is `cand.isNonnull()`, here `cand.isSome`. -/
def DictMuonMiniIsolation.evaluate (self : DictMuonMiniIsolation)
    (cand : Option Muon) (event : Option Event) : Dict × DictMuonMiniIsolation :=
  let c0 := self.m_isoComp.updateEvent event
  let rho : ℚ := match event with
    | some ev => getRho ev
    | none => 0
  let outerR : ℚ := match cand with
    | some candR => 10 / stdMin (stdMax candR.pt 50) 200
    | none => 0
  let r : MuonSums × IsolationComputer Muon :=
    match cand with
    | none => (⟨-1, -1, -1, -1, -1, -1⟩, c0)
    | some candR =>
      let q1 := c0.sum ⟨.chargedAbsIso, candR, outerR, 0.0001, 0, none⟩
      let absIsoCharged := q1.1
      let q2 := q1.2.sum ⟨.puAbsIso, candR, outerR, 0.01, 0.5, none⟩
      let absIsoPU := q2.1
      let q3 := q2.2.sum ⟨.neutralAbsIsoRaw, candR, outerR, 0.01, 0.5, none⟩
      let isoNeutralRaw := q3.1
      let q4 := q3.2.sum ⟨.neutralAbsIsoWeighted, candR, outerR, 0.01, 0.5, none⟩
      let isoNeutralWeights := q4.1
      let isoNeutralRhoArea :=
        stdMax 0
          (isoNeutralRaw - rho * self.m_ea.getEffectiveArea candR.eta * (outerR / 0.3) ^ 2)
      let isoNeutralDeltaBeta := stdMax 0 (isoNeutralRaw - 0.5 * absIsoPU)
      (⟨absIsoCharged, absIsoPU, isoNeutralRaw, isoNeutralWeights, isoNeutralRhoArea,
          isoNeutralDeltaBeta⟩, q4.2)
  let s := r.1
  let ret : Dict := []
  let ret := ret.add "miniIso_R" (.fin outerR)
  let ret := ret.add "miniIso_AbsCharged" (.fin s.absIsoCharged)
  let ret := ret.add "miniIso_AbsPU" (.fin s.absIsoPU)
  let candpt : CFloat := toFloat (match cand with
    | some candR => candR.pt
    | none => -1)
  let ret := addNeutralAbsRel ret s.absIsoCharged candpt s.isoNeutralWeights "weights"
  let ret := addNeutralAbsRel ret s.absIsoCharged candpt s.isoNeutralRaw "raw"
  let ret := addNeutralAbsRel ret s.absIsoCharged candpt s.isoNeutralRhoArea "rhoArea"
  let ret := addNeutralAbsRel ret s.absIsoCharged candpt s.isoNeutralDeltaBeta "deltaBeta"
  (ret, { self with m_isoComp := r.2 })

/-! ## Sample inputs -/

/-- A sample implementation of the sum methods: a fixed value for each method. -/
def sampleAnswer {Cand : Type} (_ : Option Event) (q : Query Cand) : ℚ :=
  match q.kind with
  | .chargedAbsIso => 1
  | .puAbsIso => 4
  | .photonAbsIsoRaw => 2
  | .neutralHadAbsIsoRaw => 3
  | .photonAbsIsoWeighted => 1
  | .neutralHadAbsIsoWeighted => 2
  | .neutralAbsIsoRaw => 5
  | .neutralAbsIsoWeighted => 3

/-- A sample electron tool: the sample sums, a constant effective area, no call received. -/
def sampleElectronTool : DictElectronMiniIsolation :=
  ⟨⟨sampleAnswer, none, []⟩, ⟨fun _ => 1 / 10⟩⟩

/-- A sample muon tool: the sample sums, a constant effective area, no call received. -/
def sampleMuonTool : DictMuonMiniIsolation :=
  ⟨⟨sampleAnswer, none, []⟩, ⟨fun _ => 1 / 10⟩⟩

/-- An electron tool whose computer returns 0 for every sum. -/
def zeroElectronTool : DictElectronMiniIsolation :=
  ⟨⟨fun _ _ => 0, none, []⟩, ⟨fun _ => 1 / 10⟩⟩

/-- A second sample implementation of the sum methods: as `sampleAnswer` for the charged,
pileup and combined neutral sums, different for the photon and neutral-hadron sums. -/
def otherAnswer {Cand : Type} (_ : Option Event) (q : Query Cand) : ℚ :=
  match q.kind with
  | .chargedAbsIso => 1
  | .puAbsIso => 4
  | .photonAbsIsoRaw => 20
  | .neutralHadAbsIsoRaw => 30
  | .photonAbsIsoWeighted => 10
  | .neutralHadAbsIsoWeighted => 20
  | .neutralAbsIsoRaw => 5
  | .neutralAbsIsoWeighted => 3

/-- A second sample muon tool, with the second sample sums. -/
def otherMuonTool : DictMuonMiniIsolation :=
  ⟨⟨otherAnswer, none, []⟩, ⟨fun _ => 1 / 10⟩⟩

/-- A sample event with pileup density 2. -/
def sampleEvent : Event := ⟨1, 2⟩

/-- A sample supercluster. -/
def sampleSC : SuperCluster := ⟨1 / 2⟩

/-- A barrel electron of the given pt, with a supercluster. -/
def barrelElectron (pt : ℚ) : Electron := ⟨pt, true, some sampleSC⟩

/-- An endcap electron of the given pt, with a supercluster. -/
def endcapElectron (pt : ℚ) : Electron := ⟨pt, false, some sampleSC⟩

/-- A muon of the given pt. -/
def sampleMuon (pt : ℚ) : Muon := ⟨pt, 1⟩

/-! ## The shape of the two records -/

/-- The electron record laid out: the five plain fields, then three fields per scheme. -/
def electronRecord (outerR : ℚ) (s : ElectronSums) (candpt : CFloat) : Dict :=
  [("miniIso_R", .fin outerR),
   ("miniIso_AbsCharged", .fin s.absIsoCharged),
   ("miniIso_AbsPho", .fin s.isoPhotRaw),
   ("miniIso_AbsNHad", .fin s.isoNHadRaw),
   ("miniIso_AbsPU", .fin s.absIsoPU),
   ("miniIso_AbsNeutral_weights", .fin s.isoNeutralWeights),
   ("miniIso_Abs_weights", .fin (s.absIsoCharged + s.isoNeutralWeights)),
   ("miniIso_Rel_weights", divByFloat (s.absIsoCharged + s.isoNeutralWeights) candpt),
   ("miniIso_AbsNeutral_raw", .fin s.isoNeutralRaw),
   ("miniIso_Abs_raw", .fin (s.absIsoCharged + s.isoNeutralRaw)),
   ("miniIso_Rel_raw", divByFloat (s.absIsoCharged + s.isoNeutralRaw) candpt),
   ("miniIso_AbsNeutral_rhoArea", .fin s.isoNeutralRhoArea),
   ("miniIso_Abs_rhoArea", .fin (s.absIsoCharged + s.isoNeutralRhoArea)),
   ("miniIso_Rel_rhoArea", divByFloat (s.absIsoCharged + s.isoNeutralRhoArea) candpt),
   ("miniIso_AbsNeutral_deltaBeta", .fin s.isoNeutralDeltaBeta),
   ("miniIso_Abs_deltaBeta", .fin (s.absIsoCharged + s.isoNeutralDeltaBeta)),
   ("miniIso_Rel_deltaBeta", divByFloat (s.absIsoCharged + s.isoNeutralDeltaBeta) candpt)]

/-- The muon record laid out: the three plain fields, then three fields per scheme. -/
def muonRecord (outerR : ℚ) (s : MuonSums) (candpt : CFloat) : Dict :=
  [("miniIso_R", .fin outerR),
   ("miniIso_AbsCharged", .fin s.absIsoCharged),
   ("miniIso_AbsPU", .fin s.absIsoPU),
   ("miniIso_AbsNeutral_weights", .fin s.isoNeutralWeights),
   ("miniIso_Abs_weights", .fin (s.absIsoCharged + s.isoNeutralWeights)),
   ("miniIso_Rel_weights", divByFloat (s.absIsoCharged + s.isoNeutralWeights) candpt),
   ("miniIso_AbsNeutral_raw", .fin s.isoNeutralRaw),
   ("miniIso_Abs_raw", .fin (s.absIsoCharged + s.isoNeutralRaw)),
   ("miniIso_Rel_raw", divByFloat (s.absIsoCharged + s.isoNeutralRaw) candpt),
   ("miniIso_AbsNeutral_rhoArea", .fin s.isoNeutralRhoArea),
   ("miniIso_Abs_rhoArea", .fin (s.absIsoCharged + s.isoNeutralRhoArea)),
   ("miniIso_Rel_rhoArea", divByFloat (s.absIsoCharged + s.isoNeutralRhoArea) candpt),
   ("miniIso_AbsNeutral_deltaBeta", .fin s.isoNeutralDeltaBeta),
   ("miniIso_Abs_deltaBeta", .fin (s.absIsoCharged + s.isoNeutralDeltaBeta)),
   ("miniIso_Rel_deltaBeta", divByFloat (s.absIsoCharged + s.isoNeutralDeltaBeta) candpt)]

/-! ## Reading the calls and running several calls -/

/-- The sum queries among the calls a computer has received, oldest first. -/
def sumQueries {Cand : Type} (calls : List (Call Cand)) : List (Query Cand) :=
  calls.filterMap fun c =>
    match c with
    | Call.sum q => some q
    | Call.updateEvent _ => none

/-- A caller that invokes the electron `evaluate` on one candidate and event after the
other, on the same object; the records are dropped, the object is kept. -/
def DictElectronMiniIsolation.run (self : DictElectronMiniIsolation) :
    List (Option Electron × Option Event) → DictElectronMiniIsolation
  | [] => self
  | (cand, event) :: rest => DictElectronMiniIsolation.run (self.evaluate cand event).2 rest

/-- A caller that invokes the muon `evaluate` on one candidate and event after the other, on
the same object; the records are dropped, the object is kept. -/
def DictMuonMiniIsolation.run (self : DictMuonMiniIsolation) :
    List (Option Muon × Option Event) → DictMuonMiniIsolation
  | [] => self
  | (cand, event) :: rest => DictMuonMiniIsolation.run (self.evaluate cand event).2 rest

/-- The sum queries of the electron `evaluate` on a valid candidate, in the order in which
they are written, for the outer radius `outerR`. -/
def electronQueries (candR : Electron) (outerR : ℚ) : List (Query Electron) :=
  [⟨.chargedAbsIso, candR, outerR, if candR.isEB then 0 else 0.015, 0, some .selfVetoNone⟩,
   ⟨.puAbsIso, candR, outerR, if candR.isEB then 0 else 0.015, 0, some .selfVetoNone⟩,
   ⟨.photonAbsIsoRaw, candR, outerR, if candR.isEB then 0 else 0.08, 0, some .selfVetoNone⟩,
   ⟨.neutralHadAbsIsoRaw, candR, outerR, 0, 0, some .selfVetoNone⟩,
   ⟨.photonAbsIsoWeighted, candR, outerR, if candR.isEB then 0 else 0.08, 0,
     some .selfVetoNone⟩,
   ⟨.neutralHadAbsIsoWeighted, candR, outerR, 0, 0, some .selfVetoNone⟩]

/-- The sum queries of the muon `evaluate` on a valid candidate, in the order in which they
are written, for the outer radius `outerR`. -/
def muonQueries (candR : Muon) (outerR : ℚ) : List (Query Muon) :=
  [⟨.chargedAbsIso, candR, outerR, 0.0001, 0, none⟩,
   ⟨.puAbsIso, candR, outerR, 0.01, 0.5, none⟩,
   ⟨.neutralAbsIsoRaw, candR, outerR, 0.01, 0.5, none⟩,
   ⟨.neutralAbsIsoWeighted, candR, outerR, 0.01, 0.5, none⟩]

/-- The calls of a sequence of `evaluate` calls, as they must look: for each call its event
handed over by `updateEvent`, followed by the sum queries of that call. -/
def handOffBlocks {Cand : Type} :
    List (Option Event) → List (List (Query Cand)) → List (Call Cand)
  | event :: events, qs :: qss =>
    Call.updateEvent event :: qs.map Call.sum ++ handOffBlocks events qss
  | _, _ => []

/-- The local `rho` of both methods: `event ? getRho(event) : 0.`. -/
def rhoOf (event : Option Event) : ℚ :=
  match event with
  | some ev => getRho ev
  | none => 0

/-! ## Auxiliary facts -/

/-- Whatever the candidate, the electron record has the laid-out shape. -/
theorem electron_record_shape (self : DictElectronMiniIsolation) (cand : Option Electron)
    (event : Option Event) :
    ∃ (outerR : ℚ) (s : ElectronSums) (candpt : CFloat),
      (self.evaluate cand event).1 = electronRecord outerR s candpt := by
  simp only [DictElectronMiniIsolation.evaluate, addNeutralAbsRel, Dict.add,
    String.reduceAppend, List.nil_append, List.cons_append, electronRecord]
  exact ⟨_, _, _, rfl⟩

/-- Whatever the candidate, the muon record has the laid-out shape. -/
theorem muon_record_shape (self : DictMuonMiniIsolation) (cand : Option Muon)
    (event : Option Event) :
    ∃ (outerR : ℚ) (s : MuonSums) (candpt : CFloat),
      (self.evaluate cand event).1 = muonRecord outerR s candpt :=
  ⟨_, _, _, rfl⟩

theorem refs_some (candR : Electron) (sc : SuperCluster) (h : candR.superCluster = some sc) :
    DictElectronMiniIsolation.refs (some candR) = some (candR, sc) := by
  simp [DictElectronMiniIsolation.refs, h]

theorem toFloat_neg_one : toFloat (-1) = CFloat.finite (-1) := by decide!

theorem stdMax_zero_nonneg (x : ℚ) : 0 ≤ stdMax 0 x := by
  unfold stdMax
  split_ifs with h
  · exact le_of_lt h
  · exact le_refl 0

theorem coneRadius_inside (pt : ℚ) (h1 : 50 ≤ pt) (h2 : pt ≤ 200) :
    10 / stdMin (stdMax pt 50) 200 = 10 / pt := by
  have a : stdMax pt 50 = pt := by
    unfold stdMax; rw [if_neg (not_lt.mpr h1)]
  have b : stdMin pt 200 = pt := by
    unfold stdMin; rw [if_neg (not_lt.mpr h2)]
  rw [a, b]

theorem coneRadius_below (pt : ℚ) (h : pt < 50) :
    10 / stdMin (stdMax pt 50) 200 = 0.2 := by
  have a : stdMax pt 50 = 50 := by
    unfold stdMax; rw [if_pos h]
  have b : stdMin 50 200 = 50 := by
    unfold stdMin; norm_num
  rw [a, b]; norm_num

theorem coneRadius_above (pt : ℚ) (h : 200 < pt) :
    10 / stdMin (stdMax pt 50) 200 = 0.05 := by
  have a : stdMax pt 50 = pt := by
    unfold stdMax; rw [if_neg (by linarith)]
  have b : stdMin pt 200 = 200 := by
    unfold stdMin; rw [if_pos h]
  rw [a, b]; norm_num

theorem electron_R_valid (self : DictElectronMiniIsolation) (candR : Electron)
    (sc : SuperCluster) (event : Option Event) (h : candR.superCluster = some sc) :
    (self.evaluate (some candR) event).1.get "miniIso_R"
      = some (.fin (10 / stdMin (stdMax candR.pt 50) 200)) := by
  simp [DictElectronMiniIsolation.evaluate, refs_some candR sc h, addNeutralAbsRel, Dict.add,
    Dict.get, List.lookup]

theorem muon_R_valid (self : DictMuonMiniIsolation) (candR : Muon) (event : Option Event) :
    (self.evaluate (some candR) event).1.get "miniIso_R"
      = some (.fin (10 / stdMin (stdMax candR.pt 50) 200)) := by
  simp [DictMuonMiniIsolation.evaluate, addNeutralAbsRel, Dict.add, Dict.get, List.lookup]


/-- The electron `evaluate` on an invalid candidate: the sentinel record, and the computer
after `updateEvent` alone. -/
theorem electron_invalid (self : DictElectronMiniIsolation) (cand : Option Electron)
    (event : Option Event) (h : DictElectronMiniIsolation.refs cand = none) :
    (self.evaluate cand event).1
        = electronRecord 0 ⟨-1, -1, -1, -1, -1, -1, -1, -1⟩ (.finite (-1)) ∧
      (self.evaluate cand event).2.m_isoComp = self.m_isoComp.updateEvent event := by
  constructor
  · simp only [DictElectronMiniIsolation.evaluate, h, addNeutralAbsRel, Dict.add,
      String.reduceAppend, List.nil_append, List.cons_append, electronRecord,
      toFloat_neg_one]
  · simp only [DictElectronMiniIsolation.evaluate, h]

/-- The muon `evaluate` on an invalid candidate: the sentinel record, and the computer
after `updateEvent` alone. -/
theorem muon_invalid (self : DictMuonMiniIsolation) (event : Option Event) :
    (self.evaluate none event).1 = muonRecord 0 ⟨-1, -1, -1, -1, -1, -1⟩ (.finite (-1)) ∧
      (self.evaluate none event).2.m_isoComp = self.m_isoComp.updateEvent event := by
  constructor
  · simp only [DictMuonMiniIsolation.evaluate, addNeutralAbsRel, Dict.add,
      String.reduceAppend, List.nil_append, List.cons_append, muonRecord, toFloat_neg_one]
  · simp only [DictMuonMiniIsolation.evaluate]

/-- The electron `evaluate` on a valid candidate: the record, the values of the locals, and
the calls made. -/
theorem electron_valid (self : DictElectronMiniIsolation) (candR : Electron)
    (sc : SuperCluster) (event : Option Event) (h : candR.superCluster = some sc) :
    ∃ (outerR rho : ℚ) (s : ElectronSums),
      (self.evaluate (some candR) event).1 = electronRecord outerR s (toFloat candR.pt) ∧
      outerR = 10 / stdMin (stdMax candR.pt 50) 200 ∧
      (∀ ev, event = some ev → rho = getRho ev) ∧ (event = none → rho = 0) ∧
      s.absIsoCharged = self.m_isoComp.answer event
        ⟨.chargedAbsIso, candR, outerR, if candR.isEB then 0 else 0.015, 0,
          some .selfVetoNone⟩ ∧
      s.absIsoPU = self.m_isoComp.answer event
        ⟨.puAbsIso, candR, outerR, if candR.isEB then 0 else 0.015, 0, some .selfVetoNone⟩ ∧
      s.isoPhotRaw = self.m_isoComp.answer event
        ⟨.photonAbsIsoRaw, candR, outerR, if candR.isEB then 0 else 0.08, 0,
          some .selfVetoNone⟩ ∧
      s.isoNHadRaw = self.m_isoComp.answer event
        ⟨.neutralHadAbsIsoRaw, candR, outerR, 0, 0, some .selfVetoNone⟩ ∧
      s.isoNeutralRaw = s.isoPhotRaw + s.isoNHadRaw ∧
      s.isoNeutralWeights =
        self.m_isoComp.answer event
          ⟨.photonAbsIsoWeighted, candR, outerR, if candR.isEB then 0 else 0.08, 0,
            some .selfVetoNone⟩ +
        self.m_isoComp.answer event
          ⟨.neutralHadAbsIsoWeighted, candR, outerR, 0, 0, some .selfVetoNone⟩ ∧
      s.isoNeutralRhoArea =
        stdMax 0 (s.isoNeutralRaw
          - rho * self.m_ea.getEffectiveArea sc.eta * (outerR / 0.3) ^ 2) ∧
      s.isoNeutralDeltaBeta = stdMax 0 (s.isoNeutralRaw - 0.5 * s.absIsoPU) ∧
      (self.evaluate (some candR) event).2.m_isoComp.calls =
        self.m_isoComp.calls ++
          [Call.updateEvent event,
           Call.sum ⟨.chargedAbsIso, candR, outerR, if candR.isEB then 0 else 0.015, 0,
             some .selfVetoNone⟩,
           Call.sum ⟨.puAbsIso, candR, outerR, if candR.isEB then 0 else 0.015, 0,
             some .selfVetoNone⟩,
           Call.sum ⟨.photonAbsIsoRaw, candR, outerR, if candR.isEB then 0 else 0.08, 0,
             some .selfVetoNone⟩,
           Call.sum ⟨.neutralHadAbsIsoRaw, candR, outerR, 0, 0, some .selfVetoNone⟩,
           Call.sum ⟨.photonAbsIsoWeighted, candR, outerR, if candR.isEB then 0 else 0.08, 0,
             some .selfVetoNone⟩,
           Call.sum ⟨.neutralHadAbsIsoWeighted, candR, outerR, 0, 0, some .selfVetoNone⟩] := by
  have hrefs := refs_some candR sc h
  have hb : ∀ x : ℚ, (if (!candR.isEB) = true then x else 0) = if candR.isEB then 0 else x := by
    intro x; cases candR.isEB <;> simp
  simp only [DictElectronMiniIsolation.evaluate, hrefs, addNeutralAbsRel,
    Dict.add, String.reduceAppend, List.nil_append, List.cons_append,
    IsolationComputer.sum, IsolationComputer.updateEvent, List.append_assoc, hb]
  refine ⟨_, (match event with | some ev => getRho ev | none => 0), ⟨_, _, _, _, _, _, _, _⟩,
    rfl, rfl, ?_, ?_, rfl, rfl, rfl, rfl, rfl, rfl, rfl, rfl, rfl⟩
  · rintro ev rfl; rfl
  · rintro rfl; rfl

/-- The muon `evaluate` on a valid candidate: the record, the values of the locals, and the
calls made. -/
theorem muon_valid (self : DictMuonMiniIsolation) (candR : Muon) (event : Option Event) :
    ∃ (outerR rho : ℚ) (s : MuonSums),
      (self.evaluate (some candR) event).1 = muonRecord outerR s (toFloat candR.pt) ∧
      outerR = 10 / stdMin (stdMax candR.pt 50) 200 ∧
      (∀ ev, event = some ev → rho = getRho ev) ∧ (event = none → rho = 0) ∧
      s.absIsoCharged = self.m_isoComp.answer event
        ⟨.chargedAbsIso, candR, outerR, 0.0001, 0, none⟩ ∧
      s.absIsoPU = self.m_isoComp.answer event ⟨.puAbsIso, candR, outerR, 0.01, 0.5, none⟩ ∧
      s.isoNeutralRaw = self.m_isoComp.answer event
        ⟨.neutralAbsIsoRaw, candR, outerR, 0.01, 0.5, none⟩ ∧
      s.isoNeutralWeights = self.m_isoComp.answer event
        ⟨.neutralAbsIsoWeighted, candR, outerR, 0.01, 0.5, none⟩ ∧
      s.isoNeutralRhoArea =
        stdMax 0 (s.isoNeutralRaw
          - rho * self.m_ea.getEffectiveArea candR.eta * (outerR / 0.3) ^ 2) ∧
      s.isoNeutralDeltaBeta = stdMax 0 (s.isoNeutralRaw - 0.5 * s.absIsoPU) ∧
      (self.evaluate (some candR) event).2.m_isoComp.calls =
        self.m_isoComp.calls ++
          [Call.updateEvent event,
           Call.sum ⟨.chargedAbsIso, candR, outerR, 0.0001, 0, none⟩,
           Call.sum ⟨.puAbsIso, candR, outerR, 0.01, 0.5, none⟩,
           Call.sum ⟨.neutralAbsIsoRaw, candR, outerR, 0.01, 0.5, none⟩,
           Call.sum ⟨.neutralAbsIsoWeighted, candR, outerR, 0.01, 0.5, none⟩] := by
  simp only [DictMuonMiniIsolation.evaluate, addNeutralAbsRel,
    Dict.add, String.reduceAppend, List.nil_append, List.cons_append,
    IsolationComputer.sum, IsolationComputer.updateEvent, List.append_assoc]
  refine ⟨_, (match event with | some ev => getRho ev | none => 0), ⟨_, _, _, _, _, _⟩,
    rfl, rfl, ?_, ?_, rfl, rfl, rfl, rfl, rfl, rfl, rfl⟩
  · rintro ev rfl; rfl
  · rintro rfl; rfl

theorem valid_eq_false_iff (cand : Option Electron) :
    DictElectronMiniIsolation.valid cand = false ↔ DictElectronMiniIsolation.refs cand = none := by
  unfold DictElectronMiniIsolation.valid
  cases DictElectronMiniIsolation.refs cand <;> simp

theorem divByFloat_of_finite (a c : ℚ) (hc : c ≠ 0) :
    divByFloat a (.finite c) = .fin (a / c) := by
  simp [divByFloat, hc]

theorem divByFloat_zero_num (p : CFloat) (hp : p ≠ .finite 0) : divByFloat 0 p = .fin 0 := by
  cases p with
  | finite c =>
    have hc : c ≠ 0 := fun h => hp (by rw [h])
    simp [divByFloat, hc]
  | infinite => rfl

/-- The halving loop computes the binary logarithm, rounded down. -/
theorem log2Fuel_spec (fuel : ℕ) : ∀ n : ℕ, 1 ≤ n → n ≤ fuel →
    2 ^ log2Fuel fuel n ≤ n ∧ n < 2 ^ (log2Fuel fuel n + 1) := by
  induction fuel with
  | zero => intro n h1 h2; omega
  | succ fuel ih =>
    intro n h1 h2
    unfold log2Fuel
    split_ifs with hn
    · have : n = 1 := by omega
      subst this
      norm_num
    · have hhalf : 1 ≤ n / 2 := by omega
      have hle : n / 2 ≤ fuel := by omega
      obtain ⟨ha, hb⟩ := ih (n / 2) hhalf hle
      rw [pow_succ] at hb ⊢
      rw [pow_succ]
      constructor <;> omega

theorem log2_spec (n : ℕ) (h : 1 ≤ n) : 2 ^ log2 n ≤ n ∧ n < 2 ^ (log2 n + 1) :=
  log2Fuel_spec n n h (le_refl n)

theorem pow2_eq_zpow (k : ℤ) : pow2 k = (2 : ℚ) ^ k := by
  unfold pow2
  split_ifs with h
  · obtain ⟨m, rfl⟩ := Int.eq_ofNat_of_zero_le h
    simp
  · have h' : 0 ≤ -k := by omega
    obtain ⟨m, hm⟩ := Int.eq_ofNat_of_zero_le h'
    have : k = -(m : ℤ) := by omega
    subst this
    simp

theorem pow2_pos (k : ℤ) : 0 < pow2 k := by
  rw [pow2_eq_zpow]; positivity

/-- The exponent estimate of `toFloat` is at most one too large. -/
theorem pow2_log2_lt (x : ℚ) (hx : 0 < x) :
    pow2 ((log2 x.num.natAbs : ℤ) - (log2 x.den : ℤ) - 1) < x := by
  have hnum : 0 < x.num := Rat.num_pos.mpr hx
  have hn1 : 1 ≤ x.num.natAbs := by omega
  have hd1 : 1 ≤ x.den := x.den_pos
  obtain ⟨hn, -⟩ := log2_spec _ hn1
  obtain ⟨-, hd⟩ := log2_spec _ hd1
  have hxeq : x = (x.num.natAbs : ℚ) / (x.den : ℚ) := by
    have : ((x.num.natAbs : ℤ) : ℚ) = (x.num : ℚ) := by
      rw [Int.natAbs_of_nonneg hnum.le]
    rw [← Int.cast_natCast, this]
    exact (Rat.num_div_den x).symm
  rw [pow2_eq_zpow]
  have e1 : (2 : ℚ) ^ ((log2 x.num.natAbs : ℤ) - (log2 x.den : ℤ) - 1)
      = (2 : ℚ) ^ (log2 x.num.natAbs) / (2 : ℚ) ^ (log2 x.den + 1) := by
    rw [show ((log2 x.num.natAbs : ℤ) - (log2 x.den : ℤ) - 1)
      = (log2 x.num.natAbs : ℤ) - ((log2 x.den + 1 : ℕ) : ℤ) by push_cast; ring]
    rw [zpow_sub₀ (by norm_num : (2 : ℚ) ≠ 0), zpow_natCast, zpow_natCast]
  rw [e1]
  conv_rhs => rw [hxeq]
  have hdq : (0 : ℚ) < x.den := by exact_mod_cast hd1
  have hn' : (2 : ℚ) ^ (log2 x.num.natAbs) ≤ (x.num.natAbs : ℚ) := by exact_mod_cast hn
  have hd' : (x.den : ℚ) < (2 : ℚ) ^ (log2 x.den + 1) := by exact_mod_cast hd
  have hp : (0 : ℚ) < (2 : ℚ) ^ (log2 x.num.natAbs) := by positivity
  calc (2 : ℚ) ^ (log2 x.num.natAbs) / (2 : ℚ) ^ (log2 x.den + 1)
      < (2 : ℚ) ^ (log2 x.num.natAbs) / (x.den : ℚ) := by
        apply div_lt_div_of_pos_left hp hdq hd'
    _ ≤ (x.num.natAbs : ℚ) / (x.den : ℚ) := by
        apply div_le_div_of_nonneg_right hn' hdq.le

theorem roundHalfEven_pos (r : ℚ) (h : 1 / 2 < r) : 1 ≤ roundHalfEven r := by
  unfold roundHalfEven
  have hf0 : (0 : ℤ) ≤ r.floor := by
    rw [Rat.le_floor]; push_cast; linarith
  have hfl : ((r.floor : ℤ) : ℚ) ≤ r := by
    have := Rat.le_floor (z := r.floor) (r := r)
    exact this.mp (le_refl _)
  simp only
  split_ifs with h1 h2 h3
  · by_contra hc
    have : r.floor = 0 := by omega
    rw [this] at h1
    simp at h1
    linarith
  · omega
  · by_contra hc
    have : r.floor = 0 := by omega
    rw [this] at h1 h2
    simp at h1 h2
    linarith
  · omega

theorem roundHalfEven_zero (r : ℚ) (h0 : 0 ≤ r) (h : r ≤ 1 / 2) : roundHalfEven r = 0 := by
  unfold roundHalfEven
  have hf : r.floor = 0 := by
    have h1 : (0 : ℤ) ≤ r.floor := by rw [Rat.le_floor]; push_cast; linarith
    have h2 : r.floor < 1 := by
      by_contra hc
      have h3 : (1 : ℤ) ≤ r.floor := by omega
      rw [Rat.le_floor] at h3
      push_cast at h3
      linarith
    omega
  simp only [hf]
  norm_num
  intros
  linarith

/-- A positive `double` converts to the single-precision zero exactly when it is at most
`2⁻¹⁵⁰`, half the least positive `float`. -/
theorem toFloat_eq_zero_iff (x : ℚ) (hx : 0 < x) :
    toFloat x = .finite 0 ↔ x ≤ 1 / 2 ^ 150 := by
  have hx0 : x ≠ 0 := ne_of_gt hx
  have hxn : ¬ x < 0 := not_lt.mpr hx.le
  have hlow := pow2_log2_lt x hx
  unfold toFloat
  simp only [hx0, hxn, if_false]
  set k : ℤ := (log2 x.num.natAbs : ℤ) - (log2 x.den : ℤ) with hk
  set e0 : ℤ := if pow2 k ≤ x then k else k - 1 with he0
  set e : ℤ := if e0 < -126 then -126 else e0 with he
  have hulp : 0 < pow2 (e - 23) := pow2_pos _
  have he0low : pow2 e0 ≤ x := by
    rw [he0]
    split_ifs with hc
    · exact hc
    · exact hlow.le
  have h150 : (1 : ℚ) / 2 ^ 150 = pow2 (-150) := by
    rw [pow2_eq_zpow]; norm_num
  constructor
  · intro h
    by_contra hgt
    push_neg at hgt
    have hr : 1 / 2 < x / pow2 (e - 23) := by
      rw [lt_div_iff₀ hulp]
      by_cases hc : e0 < -126
      · have : e = -126 := by rw [he, if_pos hc]
        rw [this, pow2_eq_zpow]
        norm_num
        norm_num at hgt
        linarith
      · have : e = e0 := by rw [he, if_neg hc]
        rw [this]
        have h2 : pow2 (e0 - 23) ≤ pow2 e0 := by
          rw [pow2_eq_zpow, pow2_eq_zpow]
          exact zpow_le_zpow_right₀ (by norm_num) (by omega)
        have := pow2_pos (e0 - 23)
        linarith
    have hpos := roundHalfEven_pos _ hr
    have hrq : (1 : ℚ) ≤ (roundHalfEven (x / pow2 (e - 23)) : ℚ) := by exact_mod_cast hpos
    split_ifs at h with hov
    injection h with h'
    have : 0 < (roundHalfEven (x / pow2 (e - 23)) : ℚ) * pow2 (e - 23) := by positivity
    linarith
  · intro hle
    have he0lt : e0 < -126 := by
      by_contra hc
      push_neg at hc
      have h1 : pow2 (-126) ≤ pow2 e0 := by
        rw [pow2_eq_zpow, pow2_eq_zpow]
        exact zpow_le_zpow_right₀ (by norm_num) hc
      have h2 : pow2 (-126) ≤ 1 / 2 ^ 150 := le_trans h1 (le_trans he0low hle)
      rw [pow2_eq_zpow] at h2
      norm_num at h2
    have hee : e = -126 := by rw [he, if_pos he0lt]
    rw [hee]
    have hr0 : roundHalfEven (x / pow2 (-126 - 23)) = 0 := by
      apply roundHalfEven_zero
      · exact div_nonneg hx.le (pow2_pos _).le
      · rw [div_le_iff₀ (pow2_pos _), pow2_eq_zpow]
        norm_num
        norm_num at hle
        linarith
    rw [hr0]
    have hnov : ¬ pow2 128 ≤ ((0 : ℤ) : ℚ) * pow2 (-126 - 23) := by
      have := pow2_pos 128
      simp
      linarith
    rw [if_neg hnov]
    simp

/-! ## C1: cone radius policy -/

/-- C1. Cone radius policy, for the electron and the muon `evaluate`: a valid candidate
with pt in [50, 200] gets `miniIso_R = 10/pt`, one with pt < 50 gets 0.2, one with
pt > 200 gets 0.05. -/
theorem C1_cone_radius_policy (selfE : DictElectronMiniIsolation)
    (selfM : DictMuonMiniIsolation) (e : Electron) (sc : SuperCluster) (mu : Muon)
    (event : Option Event) (h : e.superCluster = some sc) :
    (50 ≤ e.pt ∧ e.pt ≤ 200 →
      (selfE.evaluate (some e) event).1.get "miniIso_R" = some (.fin (10 / e.pt))) ∧
    (e.pt < 50 → (selfE.evaluate (some e) event).1.get "miniIso_R" = some (.fin 0.2)) ∧
    (200 < e.pt → (selfE.evaluate (some e) event).1.get "miniIso_R" = some (.fin 0.05)) ∧
    (50 ≤ mu.pt ∧ mu.pt ≤ 200 →
      (selfM.evaluate (some mu) event).1.get "miniIso_R" = some (.fin (10 / mu.pt))) ∧
    (mu.pt < 50 → (selfM.evaluate (some mu) event).1.get "miniIso_R" = some (.fin 0.2)) ∧
    (200 < mu.pt → (selfM.evaluate (some mu) event).1.get "miniIso_R" = some (.fin 0.05)) := by
  rw [electron_R_valid selfE e sc event h, muon_R_valid selfM mu event]
  refine ⟨?_, ?_, ?_, ?_, ?_, ?_⟩
  · rintro ⟨h1, h2⟩
    rw [coneRadius_inside e.pt h1 h2]
  · intro h1
    rw [coneRadius_below e.pt h1]
  · intro h1
    rw [coneRadius_above e.pt h1]
  · rintro ⟨h1, h2⟩
    rw [coneRadius_inside mu.pt h1 h2]
  · intro h1
    rw [coneRadius_below mu.pt h1]
  · intro h1
    rw [coneRadius_above mu.pt h1]

/-- C1 at sample inputs: an electron of pt 100 and a muon of pt 30, then an electron of
pt 30 and a muon of pt 300, then an electron of pt 300 and a muon of pt 100. -/
theorem C1_cone_radius_policy_witness :
    ((sampleElectronTool.evaluate (some (barrelElectron 100)) (some sampleEvent)).1.get
        "miniIso_R" = some (.fin (10 / 100)) ∧
      (sampleMuonTool.evaluate (some (sampleMuon 30)) (some sampleEvent)).1.get
        "miniIso_R" = some (.fin 0.2)) ∧
    ((sampleElectronTool.evaluate (some (endcapElectron 30)) none).1.get
        "miniIso_R" = some (.fin 0.2) ∧
      (sampleMuonTool.evaluate (some (sampleMuon 300)) none).1.get
        "miniIso_R" = some (.fin 0.05)) ∧
    ((sampleElectronTool.evaluate (some (barrelElectron 300)) none).1.get
        "miniIso_R" = some (.fin 0.05) ∧
      (sampleMuonTool.evaluate (some (sampleMuon 100)) none).1.get
        "miniIso_R" = some (.fin (10 / 100))) := by
  have a := C1_cone_radius_policy sampleElectronTool sampleMuonTool (barrelElectron 100)
    sampleSC (sampleMuon 30) (some sampleEvent) rfl
  have b := C1_cone_radius_policy sampleElectronTool sampleMuonTool (endcapElectron 30)
    sampleSC (sampleMuon 300) none rfl
  have c := C1_cone_radius_policy sampleElectronTool sampleMuonTool (barrelElectron 300)
    sampleSC (sampleMuon 100) none rfl
  refine ⟨⟨a.1 ⟨?_, ?_⟩, a.2.2.2.2.1 ?_⟩, ⟨b.2.1 ?_, b.2.2.2.2.2 ?_⟩,
    ⟨c.2.2.1 ?_, c.2.2.2.1 ⟨?_, ?_⟩⟩⟩ <;>
  norm_num [barrelElectron, endcapElectron, sampleMuon]

/-! ## C2: absolute isolation is charged plus neutral -/

/-- C2. For every electron or muon candidate, valid or not, every computer and every
event, and for each of the schemes weights, raw, rhoArea and deltaBeta, the emitted
`miniIso_Abs_s` is `miniIso_AbsCharged + miniIso_AbsNeutral_s`. -/
theorem C2_abs_is_charged_plus_neutral (selfE : DictElectronMiniIsolation)
    (selfM : DictMuonMiniIsolation) (e : Option Electron) (mu : Option Muon)
    (event : Option Event) :
    (∃ ch nW nR nA nD : ℚ,
      (selfE.evaluate e event).1.get "miniIso_AbsCharged" = some (.fin ch) ∧
      (selfE.evaluate e event).1.get "miniIso_AbsNeutral_weights" = some (.fin nW) ∧
      (selfE.evaluate e event).1.get "miniIso_Abs_weights" = some (.fin (ch + nW)) ∧
      (selfE.evaluate e event).1.get "miniIso_AbsNeutral_raw" = some (.fin nR) ∧
      (selfE.evaluate e event).1.get "miniIso_Abs_raw" = some (.fin (ch + nR)) ∧
      (selfE.evaluate e event).1.get "miniIso_AbsNeutral_rhoArea" = some (.fin nA) ∧
      (selfE.evaluate e event).1.get "miniIso_Abs_rhoArea" = some (.fin (ch + nA)) ∧
      (selfE.evaluate e event).1.get "miniIso_AbsNeutral_deltaBeta" = some (.fin nD) ∧
      (selfE.evaluate e event).1.get "miniIso_Abs_deltaBeta" = some (.fin (ch + nD))) ∧
    (∃ ch nW nR nA nD : ℚ,
      (selfM.evaluate mu event).1.get "miniIso_AbsCharged" = some (.fin ch) ∧
      (selfM.evaluate mu event).1.get "miniIso_AbsNeutral_weights" = some (.fin nW) ∧
      (selfM.evaluate mu event).1.get "miniIso_Abs_weights" = some (.fin (ch + nW)) ∧
      (selfM.evaluate mu event).1.get "miniIso_AbsNeutral_raw" = some (.fin nR) ∧
      (selfM.evaluate mu event).1.get "miniIso_Abs_raw" = some (.fin (ch + nR)) ∧
      (selfM.evaluate mu event).1.get "miniIso_AbsNeutral_rhoArea" = some (.fin nA) ∧
      (selfM.evaluate mu event).1.get "miniIso_Abs_rhoArea" = some (.fin (ch + nA)) ∧
      (selfM.evaluate mu event).1.get "miniIso_AbsNeutral_deltaBeta" = some (.fin nD) ∧
      (selfM.evaluate mu event).1.get "miniIso_Abs_deltaBeta" = some (.fin (ch + nD))) := by
  obtain ⟨R, s, p, hE⟩ := electron_record_shape selfE e event
  obtain ⟨R', s', p', hM⟩ := muon_record_shape selfM mu event
  rw [hE, hM]
  exact ⟨⟨s.absIsoCharged, s.isoNeutralWeights, s.isoNeutralRaw, s.isoNeutralRhoArea,
      s.isoNeutralDeltaBeta, rfl, rfl, rfl, rfl, rfl, rfl, rfl, rfl, rfl⟩,
    ⟨s'.absIsoCharged, s'.isoNeutralWeights, s'.isoNeutralRaw, s'.isoNeutralRhoArea,
      s'.isoNeutralDeltaBeta, rfl, rfl, rfl, rfl, rfl, rfl, rfl, rfl, rfl⟩⟩

/-! ## C3: sign of the rhoArea and deltaBeta neutral contributions -/

/-- C3, as stated, fails: for the null electron candidate both `miniIso_AbsNeutral_rhoArea`
and `miniIso_AbsNeutral_deltaBeta` are the sentinel `-1`, which is negative. -/
theorem C3_counterexample_invalid_is_negative :
    (sampleElectronTool.evaluate none none).1.get "miniIso_AbsNeutral_rhoArea"
      = some (.fin (-1)) ∧
    (sampleElectronTool.evaluate none none).1.get "miniIso_AbsNeutral_deltaBeta"
      = some (.fin (-1)) ∧
    (-1 : ℚ) < 0 := by
  decide!

/-- C3, amended. For every valid candidate (electron or muon), every computer, every rho
and every effective area, `miniIso_AbsNeutral_rhoArea` and `miniIso_AbsNeutral_deltaBeta`
are both `≥ 0`; for every invalid candidate both are the sentinel `-1`. -/
theorem C3_neutral_clamped_when_valid (selfE : DictElectronMiniIsolation)
    (selfM : DictMuonMiniIsolation) (e : Electron) (sc : SuperCluster) (mu : Muon)
    (bad : Option Electron) (event : Option Event) (h : e.superCluster = some sc)
    (hbad : DictElectronMiniIsolation.valid bad = false) :
    (∃ a b : ℚ,
      (selfE.evaluate (some e) event).1.get "miniIso_AbsNeutral_rhoArea" = some (.fin a) ∧
      (selfE.evaluate (some e) event).1.get "miniIso_AbsNeutral_deltaBeta" = some (.fin b) ∧
      0 ≤ a ∧ 0 ≤ b) ∧
    (∃ a b : ℚ,
      (selfM.evaluate (some mu) event).1.get "miniIso_AbsNeutral_rhoArea" = some (.fin a) ∧
      (selfM.evaluate (some mu) event).1.get "miniIso_AbsNeutral_deltaBeta" = some (.fin b) ∧
      0 ≤ a ∧ 0 ≤ b) ∧
    ((selfE.evaluate bad event).1.get "miniIso_AbsNeutral_rhoArea" = some (.fin (-1)) ∧
      (selfE.evaluate bad event).1.get "miniIso_AbsNeutral_deltaBeta" = some (.fin (-1))) ∧
    ((selfM.evaluate none event).1.get "miniIso_AbsNeutral_rhoArea" = some (.fin (-1)) ∧
      (selfM.evaluate none event).1.get "miniIso_AbsNeutral_deltaBeta" = some (.fin (-1))) := by
  obtain ⟨R, rho, s, hrec, -, -, -, -, -, -, -, -, -, hA, hD, -⟩ :=
    electron_valid selfE e sc event h
  obtain ⟨R', rho', s', hrec', -, -, -, -, -, -, -, hA', hD', -⟩ := muon_valid selfM mu event
  rw [hrec, hrec', (electron_invalid selfE bad event ((valid_eq_false_iff bad).mp hbad)).1,
    (muon_invalid selfM event).1]
  refine ⟨⟨s.isoNeutralRhoArea, s.isoNeutralDeltaBeta, rfl, rfl, ?_, ?_⟩,
    ⟨s'.isoNeutralRhoArea, s'.isoNeutralDeltaBeta, rfl, rfl, ?_, ?_⟩, ⟨rfl, rfl⟩, ⟨rfl, rfl⟩⟩
  · rw [hA]; exact stdMax_zero_nonneg _
  · rw [hD]; exact stdMax_zero_nonneg _
  · rw [hA']; exact stdMax_zero_nonneg _
  · rw [hD']; exact stdMax_zero_nonneg _

/-- C3, amended, at sample inputs: a barrel electron and a muon of pt 100 in the sample
event, and the null electron candidate. -/
theorem C3_neutral_clamped_when_valid_witness :
    (∃ a b : ℚ,
      (sampleElectronTool.evaluate (some (barrelElectron 100)) (some sampleEvent)).1.get
        "miniIso_AbsNeutral_rhoArea" = some (.fin a) ∧
      (sampleElectronTool.evaluate (some (barrelElectron 100)) (some sampleEvent)).1.get
        "miniIso_AbsNeutral_deltaBeta" = some (.fin b) ∧
      0 ≤ a ∧ 0 ≤ b) ∧
    (sampleElectronTool.evaluate none (some sampleEvent)).1.get
        "miniIso_AbsNeutral_rhoArea" = some (.fin (-1)) :=
  have w := C3_neutral_clamped_when_valid sampleElectronTool sampleMuonTool
    (barrelElectron 100) sampleSC (sampleMuon 100) none (some sampleEvent) rfl rfl
  ⟨w.1, w.2.2.1.1⟩

/-! ## C4: the keys of the two records -/

/-- C4, as stated, fails: the muon record has 15 keys, not 14 (three plain fields and
three fields for each of the four schemes). -/
theorem C4_counterexample_muon_has_15_keys :
    (sampleMuonTool.evaluate (some (sampleMuon 100)) (some sampleEvent)).1.keys.length = 15 ∧
    (sampleMuonTool.evaluate none none).1.keys.length = 15 ∧
    (15 : ℕ) ≠ 14 := by
  decide!

/-- C4, amended. Key-set stability: for every input the electron record has exactly the
17 keys below, in this order, and the muon record exactly the 15 keys below (the same
without `miniIso_AbsPho` and `miniIso_AbsNHad`); the keys are pairwise distinct, and
neither list depends on the candidate, the event, the computer or the effective areas. -/
theorem C4_key_set_stability (selfE : DictElectronMiniIsolation)
    (selfM : DictMuonMiniIsolation) (e : Option Electron) (mu : Option Muon)
    (event : Option Event) :
    (selfE.evaluate e event).1.keys =
      ["miniIso_R", "miniIso_AbsCharged", "miniIso_AbsPho", "miniIso_AbsNHad",
       "miniIso_AbsPU",
       "miniIso_AbsNeutral_weights", "miniIso_Abs_weights", "miniIso_Rel_weights",
       "miniIso_AbsNeutral_raw", "miniIso_Abs_raw", "miniIso_Rel_raw",
       "miniIso_AbsNeutral_rhoArea", "miniIso_Abs_rhoArea", "miniIso_Rel_rhoArea",
       "miniIso_AbsNeutral_deltaBeta", "miniIso_Abs_deltaBeta", "miniIso_Rel_deltaBeta"] ∧
    (selfE.evaluate e event).1.keys.length = 17 ∧
    (selfE.evaluate e event).1.keys.Nodup ∧
    (selfM.evaluate mu event).1.keys =
      ["miniIso_R", "miniIso_AbsCharged", "miniIso_AbsPU",
       "miniIso_AbsNeutral_weights", "miniIso_Abs_weights", "miniIso_Rel_weights",
       "miniIso_AbsNeutral_raw", "miniIso_Abs_raw", "miniIso_Rel_raw",
       "miniIso_AbsNeutral_rhoArea", "miniIso_Abs_rhoArea", "miniIso_Rel_rhoArea",
       "miniIso_AbsNeutral_deltaBeta", "miniIso_Abs_deltaBeta", "miniIso_Rel_deltaBeta"] ∧
    (selfM.evaluate mu event).1.keys.length = 15 ∧
    (selfM.evaluate mu event).1.keys.Nodup := by
  obtain ⟨R, s, p, hE⟩ := electron_record_shape selfE e event
  obtain ⟨R', s', p', hM⟩ := muon_record_shape selfM mu event
  rw [hE, hM]
  refine ⟨rfl, rfl, ?_, rfl, rfl, ?_⟩
  · simp only [electronRecord, Dict.keys, List.map]
    decide
  · simp only [muonRecord, Dict.keys, List.map]
    decide

/-! ## C5: the invalid electron -/

/-- C5. An electron candidate is invalid exactly when its reference is null or its
supercluster reference is null; for every invalid electron candidate, whatever the event
and the computer, the record has `miniIso_R = 0` and `miniIso_AbsCharged`,
`miniIso_AbsPho`, `miniIso_AbsNHad`, `miniIso_AbsPU` all `-1`, and the only call the
computer receives is `updateEvent`: no sum is queried. -/
theorem C5_invalid_electron_sentinels (self : DictElectronMiniIsolation)
    (cand : Option Electron) (event : Option Event) :
    (DictElectronMiniIsolation.valid cand = false ↔
      (cand = none ∨ ∃ e : Electron, cand = some e ∧ e.superCluster = none)) ∧
    (DictElectronMiniIsolation.valid cand = false →
      (self.evaluate cand event).1.get "miniIso_R" = some (.fin 0) ∧
      (self.evaluate cand event).1.get "miniIso_AbsCharged" = some (.fin (-1)) ∧
      (self.evaluate cand event).1.get "miniIso_AbsPho" = some (.fin (-1)) ∧
      (self.evaluate cand event).1.get "miniIso_AbsNHad" = some (.fin (-1)) ∧
      (self.evaluate cand event).1.get "miniIso_AbsPU" = some (.fin (-1)) ∧
      (self.evaluate cand event).2.m_isoComp.calls
        = self.m_isoComp.calls ++ [Call.updateEvent event]) := by
  constructor
  · rw [valid_eq_false_iff]
    cases cand with
    | none => simp [DictElectronMiniIsolation.refs]
    | some e =>
      cases hsc : e.superCluster <;> simp [DictElectronMiniIsolation.refs, hsc]
  · intro hbad
    obtain ⟨hrec, hcomp⟩ := electron_invalid self cand event ((valid_eq_false_iff cand).mp hbad)
    rw [hrec, hcomp]
    exact ⟨rfl, rfl, rfl, rfl, rfl, rfl⟩

/-- C5 at sample inputs: an electron whose supercluster reference is null is invalid, and
the sample tool then queries no sum. -/
theorem C5_invalid_electron_sentinels_witness :
    DictElectronMiniIsolation.valid (some ⟨100, true, none⟩) = false ∧
    (sampleElectronTool.evaluate (some ⟨100, true, none⟩) (some sampleEvent)).1.get
      "miniIso_AbsPho" = some (.fin (-1)) ∧
    (sampleElectronTool.evaluate (some ⟨100, true, none⟩) (some sampleEvent)).2.m_isoComp.calls
      = sampleElectronTool.m_isoComp.calls ++ [Call.updateEvent (some sampleEvent)] :=
  have w := (C5_invalid_electron_sentinels sampleElectronTool (some ⟨100, true, none⟩)
    (some sampleEvent)).2 rfl
  ⟨rfl, w.2.2.1, w.2.2.2.2.2⟩

/-! ## C6: the scheme fields of the invalid electron -/

/-- C6, as stated, fails: for the null electron candidate `miniIso_AbsNeutral_raw` is `-1`,
not `miniIso_AbsPho + miniIso_AbsNHad = -2`; `miniIso_AbsNeutral_weights` is `-1`, not the
sum `-2` of two weighted sentinels; and `miniIso_AbsNeutral_rhoArea` and
`miniIso_AbsNeutral_deltaBeta` are `-1`, not the value `≥ 0` of a `max(0, _)`. -/
theorem C6_counterexample_neutral_not_recomputed :
    (sampleElectronTool.evaluate none none).1.get "miniIso_AbsPho" = some (.fin (-1)) ∧
    (sampleElectronTool.evaluate none none).1.get "miniIso_AbsNHad" = some (.fin (-1)) ∧
    (sampleElectronTool.evaluate none none).1.get "miniIso_AbsNeutral_raw"
      = some (.fin (-1)) ∧
    (-1 : ℚ) ≠ (-1) + (-1) ∧
    (sampleElectronTool.evaluate none none).1.get "miniIso_AbsNeutral_weights"
      = some (.fin (-1)) ∧
    (sampleElectronTool.evaluate none none).1.get "miniIso_AbsNeutral_rhoArea"
      = some (.fin (-1)) ∧
    (sampleElectronTool.evaluate none none).1.get "miniIso_AbsNeutral_deltaBeta"
      = some (.fin (-1)) ∧
    (-1 : ℚ) ≠ stdMax 0 ((-1) + (-1) - 0.5 * (-1)) := by
  refine ⟨by decide!, by decide!, by decide!, by norm_num, by decide!, by decide!, by decide!,
    ?_⟩
  have := stdMax_zero_nonneg ((-1) + (-1) - 0.5 * (-1))
  intro h
  rw [← h] at this
  norm_num at this

/-- C6, amended. For every invalid electron candidate the four `miniIso_AbsNeutral_s`
fields keep the initial sentinel `-1` (the formulas for the neutral contributions are not
applied), and the other eight scheme fields are derived from those:
`miniIso_Abs_s = miniIso_AbsCharged + miniIso_AbsNeutral_s = -2` and
`miniIso_Rel_s = miniIso_Abs_s / -1 = 2`. -/
theorem C6_invalid_electron_scheme_fields (self : DictElectronMiniIsolation)
    (cand : Option Electron) (event : Option Event)
    (hbad : DictElectronMiniIsolation.valid cand = false) :
    ((self.evaluate cand event).1.get "miniIso_AbsNeutral_weights" = some (.fin (-1)) ∧
      (self.evaluate cand event).1.get "miniIso_Abs_weights" = some (.fin (-1 + -1)) ∧
      (self.evaluate cand event).1.get "miniIso_Rel_weights" = some (.fin ((-1 + -1) / -1))) ∧
    ((self.evaluate cand event).1.get "miniIso_AbsNeutral_raw" = some (.fin (-1)) ∧
      (self.evaluate cand event).1.get "miniIso_Abs_raw" = some (.fin (-1 + -1)) ∧
      (self.evaluate cand event).1.get "miniIso_Rel_raw" = some (.fin ((-1 + -1) / -1))) ∧
    ((self.evaluate cand event).1.get "miniIso_AbsNeutral_rhoArea" = some (.fin (-1)) ∧
      (self.evaluate cand event).1.get "miniIso_Abs_rhoArea" = some (.fin (-1 + -1)) ∧
      (self.evaluate cand event).1.get "miniIso_Rel_rhoArea" = some (.fin ((-1 + -1) / -1))) ∧
    ((self.evaluate cand event).1.get "miniIso_AbsNeutral_deltaBeta" = some (.fin (-1)) ∧
      (self.evaluate cand event).1.get "miniIso_Abs_deltaBeta" = some (.fin (-1 + -1)) ∧
      (self.evaluate cand event).1.get "miniIso_Rel_deltaBeta"
        = some (.fin ((-1 + -1) / -1))) ∧
    ((-1 + -1 : ℚ) = -2 ∧ ((-1 + -1) / -1 : ℚ) = 2) := by
  rw [(electron_invalid self cand event ((valid_eq_false_iff cand).mp hbad)).1]
  have hd : divByFloat (-1 + -1) (.finite (-1)) = .fin ((-1 + -1) / -1) := by
    simp [divByFloat]
  refine ⟨⟨rfl, rfl, ?_⟩, ⟨rfl, rfl, ?_⟩, ⟨rfl, rfl, ?_⟩, ⟨rfl, rfl, ?_⟩, by norm_num, by norm_num⟩ <;>
  exact congrArg some hd

/-- C6, amended, at a sample input: the null electron candidate in the sample event. -/
theorem C6_invalid_electron_scheme_fields_witness :
    DictElectronMiniIsolation.valid none = false ∧
    (sampleElectronTool.evaluate none (some sampleEvent)).1.get "miniIso_AbsNeutral_raw"
      = some (.fin (-1)) ∧
    (sampleElectronTool.evaluate none (some sampleEvent)).1.get "miniIso_Rel_rhoArea"
      = some (.fin ((-1 + -1) / -1)) :=
  have w := C6_invalid_electron_scheme_fields sampleElectronTool none (some sampleEvent) rfl
  ⟨rfl, w.2.1.1, w.2.2.1.2.2⟩

/-! ## C7: relative isolation -/

/-- C7, as stated, fails: for a valid barrel electron of pt `100 + 2⁻²⁰` (a `double` that
is not a `float`) the sample tool gives `miniIso_Abs_raw = 6` and
`miniIso_Rel_raw = 6/100`, which is not `6/pt`: the divisor is `const float candpt`, the
pt rounded to single precision, here `100`. -/
theorem C7_counterexample_divisor_is_float :
    (sampleElectronTool.evaluate (some (barrelElectron (100 + 1 / 2 ^ 20))) none).1.get
      "miniIso_Abs_raw" = some (.fin 6) ∧
    (sampleElectronTool.evaluate (some (barrelElectron (100 + 1 / 2 ^ 20))) none).1.get
      "miniIso_Rel_raw" = some (.fin (6 / 100)) ∧
    toFloat (100 + 1 / 2 ^ 20) = .finite 100 ∧
    (6 / 100 : ℚ) ≠ 6 / (100 + 1 / 2 ^ 20) := by
  refine ⟨by decide!, by decide!, by decide!, by norm_num⟩

/-- C7, amended. For every candidate (electron or muon) and each of the four schemes,
`miniIso_Rel_s` is `miniIso_Abs_s` divided by `candpt`, the single-precision value of the
candidate's pt when the candidate is valid and `-1` when it is invalid (so that
`miniIso_Rel_s = -miniIso_Abs_s` for an invalid candidate); the quotient is not a finite
number when `candpt` is zero. In particular `miniIso_Rel_s = miniIso_Abs_s / pt` whenever
the pt of a valid candidate is a non-zero single-precision number. -/
theorem C7_rel_is_abs_over_candpt (selfE : DictElectronMiniIsolation)
    (selfM : DictMuonMiniIsolation) (e : Electron) (sc : SuperCluster) (mu : Muon)
    (bad : Option Electron) (event : Option Event) (h : e.superCluster = some sc)
    (hbad : DictElectronMiniIsolation.valid bad = false) :
    (∃ aW aR aA aD : ℚ,
      (selfE.evaluate (some e) event).1.get "miniIso_Abs_weights" = some (.fin aW) ∧
      (selfE.evaluate (some e) event).1.get "miniIso_Abs_raw" = some (.fin aR) ∧
      (selfE.evaluate (some e) event).1.get "miniIso_Abs_rhoArea" = some (.fin aA) ∧
      (selfE.evaluate (some e) event).1.get "miniIso_Abs_deltaBeta" = some (.fin aD) ∧
      (selfE.evaluate (some e) event).1.get "miniIso_Rel_weights"
        = some (divByFloat aW (toFloat e.pt)) ∧
      (selfE.evaluate (some e) event).1.get "miniIso_Rel_raw"
        = some (divByFloat aR (toFloat e.pt)) ∧
      (selfE.evaluate (some e) event).1.get "miniIso_Rel_rhoArea"
        = some (divByFloat aA (toFloat e.pt)) ∧
      (selfE.evaluate (some e) event).1.get "miniIso_Rel_deltaBeta"
        = some (divByFloat aD (toFloat e.pt)) ∧
      (toFloat e.pt = .finite e.pt → e.pt ≠ 0 →
        (selfE.evaluate (some e) event).1.get "miniIso_Rel_weights" = some (.fin (aW / e.pt)) ∧
        (selfE.evaluate (some e) event).1.get "miniIso_Rel_raw" = some (.fin (aR / e.pt)) ∧
        (selfE.evaluate (some e) event).1.get "miniIso_Rel_rhoArea" = some (.fin (aA / e.pt)) ∧
        (selfE.evaluate (some e) event).1.get "miniIso_Rel_deltaBeta"
          = some (.fin (aD / e.pt))) ∧
      (toFloat e.pt = .finite 0 →
        (selfE.evaluate (some e) event).1.get "miniIso_Rel_weights" = some .nonFinite ∧
        (selfE.evaluate (some e) event).1.get "miniIso_Rel_raw" = some .nonFinite ∧
        (selfE.evaluate (some e) event).1.get "miniIso_Rel_rhoArea" = some .nonFinite ∧
        (selfE.evaluate (some e) event).1.get "miniIso_Rel_deltaBeta" = some .nonFinite)) ∧
    (∃ aW aR aA aD : ℚ,
      (selfM.evaluate (some mu) event).1.get "miniIso_Abs_weights" = some (.fin aW) ∧
      (selfM.evaluate (some mu) event).1.get "miniIso_Abs_raw" = some (.fin aR) ∧
      (selfM.evaluate (some mu) event).1.get "miniIso_Abs_rhoArea" = some (.fin aA) ∧
      (selfM.evaluate (some mu) event).1.get "miniIso_Abs_deltaBeta" = some (.fin aD) ∧
      (selfM.evaluate (some mu) event).1.get "miniIso_Rel_weights"
        = some (divByFloat aW (toFloat mu.pt)) ∧
      (selfM.evaluate (some mu) event).1.get "miniIso_Rel_raw"
        = some (divByFloat aR (toFloat mu.pt)) ∧
      (selfM.evaluate (some mu) event).1.get "miniIso_Rel_rhoArea"
        = some (divByFloat aA (toFloat mu.pt)) ∧
      (selfM.evaluate (some mu) event).1.get "miniIso_Rel_deltaBeta"
        = some (divByFloat aD (toFloat mu.pt)) ∧
      (toFloat mu.pt = .finite mu.pt → mu.pt ≠ 0 →
        (selfM.evaluate (some mu) event).1.get "miniIso_Rel_weights"
          = some (.fin (aW / mu.pt)) ∧
        (selfM.evaluate (some mu) event).1.get "miniIso_Rel_raw" = some (.fin (aR / mu.pt)) ∧
        (selfM.evaluate (some mu) event).1.get "miniIso_Rel_rhoArea"
          = some (.fin (aA / mu.pt)) ∧
        (selfM.evaluate (some mu) event).1.get "miniIso_Rel_deltaBeta"
          = some (.fin (aD / mu.pt))) ∧
      (toFloat mu.pt = .finite 0 →
        (selfM.evaluate (some mu) event).1.get "miniIso_Rel_weights" = some .nonFinite ∧
        (selfM.evaluate (some mu) event).1.get "miniIso_Rel_raw" = some .nonFinite ∧
        (selfM.evaluate (some mu) event).1.get "miniIso_Rel_rhoArea" = some .nonFinite ∧
        (selfM.evaluate (some mu) event).1.get "miniIso_Rel_deltaBeta" = some .nonFinite)) ∧
    (∃ aW aR aA aD : ℚ,
      (selfE.evaluate bad event).1.get "miniIso_Abs_weights" = some (.fin aW) ∧
      (selfE.evaluate bad event).1.get "miniIso_Abs_raw" = some (.fin aR) ∧
      (selfE.evaluate bad event).1.get "miniIso_Abs_rhoArea" = some (.fin aA) ∧
      (selfE.evaluate bad event).1.get "miniIso_Abs_deltaBeta" = some (.fin aD) ∧
      (selfE.evaluate bad event).1.get "miniIso_Rel_weights" = some (.fin (aW / -1)) ∧
      (selfE.evaluate bad event).1.get "miniIso_Rel_raw" = some (.fin (aR / -1)) ∧
      (selfE.evaluate bad event).1.get "miniIso_Rel_rhoArea" = some (.fin (aA / -1)) ∧
      (selfE.evaluate bad event).1.get "miniIso_Rel_deltaBeta" = some (.fin (aD / -1)) ∧
      aW / -1 = -aW ∧ aR / -1 = -aR ∧ aA / -1 = -aA ∧ aD / -1 = -aD) ∧
    (∃ aW aR aA aD : ℚ,
      (selfM.evaluate none event).1.get "miniIso_Abs_weights" = some (.fin aW) ∧
      (selfM.evaluate none event).1.get "miniIso_Abs_raw" = some (.fin aR) ∧
      (selfM.evaluate none event).1.get "miniIso_Abs_rhoArea" = some (.fin aA) ∧
      (selfM.evaluate none event).1.get "miniIso_Abs_deltaBeta" = some (.fin aD) ∧
      (selfM.evaluate none event).1.get "miniIso_Rel_weights" = some (.fin (aW / -1)) ∧
      (selfM.evaluate none event).1.get "miniIso_Rel_raw" = some (.fin (aR / -1)) ∧
      (selfM.evaluate none event).1.get "miniIso_Rel_rhoArea" = some (.fin (aA / -1)) ∧
      (selfM.evaluate none event).1.get "miniIso_Rel_deltaBeta" = some (.fin (aD / -1)) ∧
      aW / -1 = -aW ∧ aR / -1 = -aR ∧ aA / -1 = -aA ∧ aD / -1 = -aD) := by
  obtain ⟨R, rho, s, hrec, -⟩ := electron_valid selfE e sc event h
  obtain ⟨R', rho', s', hrec', -⟩ := muon_valid selfM mu event
  rw [hrec, hrec', (electron_invalid selfE bad event ((valid_eq_false_iff bad).mp hbad)).1,
    (muon_invalid selfM event).1]
  have hd : divByFloat (-1 + -1) (.finite (-1)) = .fin ((-1 + -1) / -1) := by
    simp [divByFloat]
  refine ⟨⟨_, _, _, _, rfl, rfl, rfl, rfl, rfl, rfl, rfl, rfl, ?_, ?_⟩,
    ⟨_, _, _, _, rfl, rfl, rfl, rfl, rfl, rfl, rfl, rfl, ?_, ?_⟩,
    ⟨_, _, _, _, rfl, rfl, rfl, rfl, congrArg some hd, congrArg some hd, congrArg some hd,
      congrArg some hd, by norm_num, by norm_num, by norm_num, by norm_num⟩,
    ⟨_, _, _, _, rfl, rfl, rfl, rfl, congrArg some hd, congrArg some hd, congrArg some hd,
      congrArg some hd, by norm_num, by norm_num, by norm_num, by norm_num⟩⟩
  · intro hf hne
    simp only [electronRecord, Dict.get, List.lookup, hf, divByFloat_of_finite _ _ hne]
    exact ⟨rfl, rfl, rfl, rfl⟩
  · intro hf
    simp only [electronRecord, Dict.get, List.lookup, hf]
    exact ⟨rfl, rfl, rfl, rfl⟩
  · intro hf hne
    simp only [muonRecord, Dict.get, List.lookup, hf, divByFloat_of_finite _ _ hne]
    exact ⟨rfl, rfl, rfl, rfl⟩
  · intro hf
    simp only [muonRecord, Dict.get, List.lookup, hf]
    exact ⟨rfl, rfl, rfl, rfl⟩

/-- C7, amended, at sample inputs: a barrel electron of pt 100 (a single-precision number)
in the sample event, whose `miniIso_Rel_raw` is `miniIso_Abs_raw / 100`, and the null
electron candidate. -/
theorem C7_rel_is_abs_over_candpt_witness :
    (barrelElectron 100).superCluster = some sampleSC ∧
    DictElectronMiniIsolation.valid none = false ∧
    (∃ aR : ℚ,
      (sampleElectronTool.evaluate (some (barrelElectron 100)) (some sampleEvent)).1.get
        "miniIso_Abs_raw" = some (.fin aR) ∧
      (sampleElectronTool.evaluate (some (barrelElectron 100)) (some sampleEvent)).1.get
        "miniIso_Rel_raw" = some (.fin (aR / (barrelElectron 100).pt))) ∧
    (∃ aR : ℚ,
      (sampleElectronTool.evaluate none (some sampleEvent)).1.get
        "miniIso_Abs_raw" = some (.fin aR) ∧
      (sampleElectronTool.evaluate none (some sampleEvent)).1.get
        "miniIso_Rel_raw" = some (.fin (aR / -1))) := by
  obtain ⟨⟨_, aR, _, _, _, h2, _, _, _, _, _, _, hx, _⟩, _, ⟨_, bR, _, _, _, k2, _, _, _, k6, _⟩, _⟩ :=
    C7_rel_is_abs_over_candpt sampleElectronTool sampleMuonTool (barrelElectron 100)
      sampleSC (sampleMuon 100) none (some sampleEvent) rfl rfl
  have hf : toFloat (barrelElectron 100).pt = .finite (barrelElectron 100).pt := by decide!
  have hne : (barrelElectron 100).pt ≠ 0 := by decide!
  exact ⟨rfl, rfl, ⟨aR, h2, (hx hf hne).2.1⟩, ⟨bR, k2, k6⟩⟩

/-! ## C8: the relative isolation of an invalid candidate -/

/-- C8, as stated, fails: for the null electron candidate and for the null muon candidate
`miniIso_Rel_raw` is `2`, a finite number that is not negative. -/
theorem C8_counterexample_rel_is_positive :
    (sampleElectronTool.evaluate none none).1.get "miniIso_Rel_raw" = some (.fin 2) ∧
    (sampleMuonTool.evaluate none none).1.get "miniIso_Rel_raw" = some (.fin 2) ∧
    ¬ ((2 : ℚ) < 0) := by
  refine ⟨by decide!, by decide!, by norm_num⟩

/-- C8, amended. For every invalid candidate (electron or muon) the division by the forced
pt of `-1` yields the same positive finite sentinel for the four schemes:
`miniIso_Rel_s = (-1 + -1) / -1 = 2`. -/
theorem C8_invalid_rel_is_two (selfE : DictElectronMiniIsolation)
    (selfM : DictMuonMiniIsolation) (bad : Option Electron) (event : Option Event)
    (hbad : DictElectronMiniIsolation.valid bad = false) :
    ((selfE.evaluate bad event).1.get "miniIso_Rel_weights" = some (.fin 2) ∧
      (selfE.evaluate bad event).1.get "miniIso_Rel_raw" = some (.fin 2) ∧
      (selfE.evaluate bad event).1.get "miniIso_Rel_rhoArea" = some (.fin 2) ∧
      (selfE.evaluate bad event).1.get "miniIso_Rel_deltaBeta" = some (.fin 2)) ∧
    ((selfM.evaluate none event).1.get "miniIso_Rel_weights" = some (.fin 2) ∧
      (selfM.evaluate none event).1.get "miniIso_Rel_raw" = some (.fin 2) ∧
      (selfM.evaluate none event).1.get "miniIso_Rel_rhoArea" = some (.fin 2) ∧
      (selfM.evaluate none event).1.get "miniIso_Rel_deltaBeta" = some (.fin 2)) ∧
    (0 : ℚ) < 2 := by
  rw [(electron_invalid selfE bad event ((valid_eq_false_iff bad).mp hbad)).1,
    (muon_invalid selfM event).1]
  have hd : divByFloat (-1 + -1) (.finite (-1)) = .fin 2 := by
    simp [divByFloat]; norm_num
  exact ⟨⟨congrArg some hd, congrArg some hd, congrArg some hd, congrArg some hd⟩,
    ⟨congrArg some hd, congrArg some hd, congrArg some hd, congrArg some hd⟩, by norm_num⟩

/-- C8, amended, at a sample input: an electron whose supercluster reference is null. -/
theorem C8_invalid_rel_is_two_witness :
    DictElectronMiniIsolation.valid (some ⟨100, false, none⟩) = false ∧
    (sampleElectronTool.evaluate (some ⟨100, false, none⟩) (some sampleEvent)).1.get
      "miniIso_Rel_deltaBeta" = some (.fin 2) :=
  have w := C8_invalid_rel_is_two sampleElectronTool sampleMuonTool
    (some ⟨100, false, none⟩) (some sampleEvent) rfl
  ⟨rfl, w.1.2.2.2⟩

/-! ## C9: a valid electron with nothing around it -/

/-- C9, as stated, fails: a valid barrel electron of pt `2⁻²⁰⁰ > 0`, with all sums zero
and no event (rho = 0), has `miniIso_Rel_raw` not a finite number: its pt rounds to the
single-precision zero, and the quotient is `0/0`. The same happens up to pt `2⁻¹⁵⁰`. -/
theorem C9_counterexample_tiny_pt :
    (0 : ℚ) < 1 / 2 ^ 200 ∧
    toFloat (1 / 2 ^ 200) = .finite 0 ∧
    (zeroElectronTool.evaluate (some (barrelElectron (1 / 2 ^ 200))) none).1.get
      "miniIso_Abs_raw" = some (.fin 0) ∧
    (zeroElectronTool.evaluate (some (barrelElectron (1 / 2 ^ 200))) none).1.get
      "miniIso_Rel_raw" = some .nonFinite ∧
    (zeroElectronTool.evaluate (some (barrelElectron (1 / 2 ^ 150))) none).1.get
      "miniIso_Rel_raw" = some .nonFinite := by
  refine ⟨by norm_num, by decide!, by decide!, by decide!, by decide!⟩

/-- C9, amended. For every valid electron with pt > 2⁻¹⁵⁰ (the pt that do not round to the
single-precision zero), when the computer returns 0 for every sum and rho = 0, every
`miniIso_Abs_s` and every `miniIso_Rel_s` is 0 and `miniIso_R = 10/clamp(pt, 50, 200)`;
in particular `miniIso_R = 0.1` for pt = 100. -/
theorem C9_isolated_electron (self : DictElectronMiniIsolation) (e : Electron)
    (sc : SuperCluster) (event : Option Event) (h : e.superCluster = some sc)
    (hpt : 1 / 2 ^ 150 < e.pt)
    (hzero : ∀ q : Query Electron, self.m_isoComp.answer event q = 0)
    (hrho : ∀ ev : Event, event = some ev → getRho ev = 0) :
    ((self.evaluate (some e) event).1.get "miniIso_Abs_weights" = some (.fin 0) ∧
      (self.evaluate (some e) event).1.get "miniIso_Abs_raw" = some (.fin 0) ∧
      (self.evaluate (some e) event).1.get "miniIso_Abs_rhoArea" = some (.fin 0) ∧
      (self.evaluate (some e) event).1.get "miniIso_Abs_deltaBeta" = some (.fin 0)) ∧
    ((self.evaluate (some e) event).1.get "miniIso_Rel_weights" = some (.fin 0) ∧
      (self.evaluate (some e) event).1.get "miniIso_Rel_raw" = some (.fin 0) ∧
      (self.evaluate (some e) event).1.get "miniIso_Rel_rhoArea" = some (.fin 0) ∧
      (self.evaluate (some e) event).1.get "miniIso_Rel_deltaBeta" = some (.fin 0)) ∧
    (self.evaluate (some e) event).1.get "miniIso_R"
      = some (.fin (10 / stdMin (stdMax e.pt 50) 200)) ∧
    (e.pt = 100 → (self.evaluate (some e) event).1.get "miniIso_R" = some (.fin 0.1)) := by
  have hpos : 0 < e.pt := lt_trans (by norm_num) hpt
  have hfloat : toFloat e.pt ≠ .finite 0 := fun hc =>
    absurd ((toFloat_eq_zero_iff e.pt hpos).mp hc) (not_le.mpr hpt)
  obtain ⟨R, rho, s, hrec, hR, hrho1, hrho2, hch, hpu, hph, hnh, hraw, hw, hA, hD, -⟩ :=
    electron_valid self e sc event h
  have hrho0 : rho = 0 := by
    cases event with
    | none => exact hrho2 rfl
    | some ev => rw [hrho1 ev rfl]; exact hrho ev rfl
  rw [hzero] at hch hpu hph hnh
  rw [hzero, hzero] at hw
  have hraw0 : s.isoNeutralRaw = 0 := by rw [hraw, hph, hnh]; norm_num
  have hw0 : s.isoNeutralWeights = 0 := by rw [hw]; norm_num
  have hA0 : s.isoNeutralRhoArea = 0 := by
    rw [hA, hraw0, hrho0]; simp [stdMax]
  have hD0 : s.isoNeutralDeltaBeta = 0 := by
    rw [hD, hraw0, hpu]; simp [stdMax]
  have h0 : divByFloat 0 (toFloat e.pt) = .fin 0 := divByFloat_zero_num _ hfloat
  rw [hrec]
  simp only [electronRecord, Dict.get, List.lookup, hch, hraw0, hw0, hA0, hD0, h0, add_zero]
  refine ⟨⟨rfl, rfl, rfl, rfl⟩, ⟨rfl, rfl, rfl, rfl⟩, ?_, ?_⟩
  · rw [hR]; rfl
  · intro h100
    rw [hR, h100]
    have : (10 : ℚ) / stdMin (stdMax 100 50) 200 = 0.1 := by
      rw [coneRadius_inside 100 (by norm_num) (by norm_num)]; norm_num
    rw [this]; rfl

/-- C9, amended, at the input of the spec: a barrel electron of pt 100, all sums zero, no
event. -/
theorem C9_isolated_electron_witness :
    (1 / 2 ^ 150 : ℚ) < (barrelElectron 100).pt ∧
    (zeroElectronTool.evaluate (some (barrelElectron 100)) none).1.get "miniIso_Rel_rhoArea"
      = some (.fin 0) ∧
    (zeroElectronTool.evaluate (some (barrelElectron 100)) none).1.get "miniIso_R"
      = some (.fin 0.1) :=
  have hpt : (1 / 2 ^ 150 : ℚ) < (barrelElectron 100).pt := by
    norm_num [barrelElectron]
  have w := C9_isolated_electron zeroElectronTool (barrelElectron 100) sampleSC none rfl
    hpt (fun _ => rfl) (fun _ hev => nomatch hev)
  ⟨hpt, w.2.1.2.2.1, w.2.2.2 rfl⟩

/-! ## C10: the electron cone geometry -/

/-- C10. Electron cone geometry: for every valid electron the computer receives
`updateEvent` and then six sum queries, all with the outer radius `miniIso_R`, threshold 0
and `selfVetoNone`; the charged and pileup sums have inner veto 0 in the barrel and 0.015
outside it, the raw and weighted photon sums 0 in the barrel and 0.08 outside it, the raw
and weighted neutral-hadron sums 0 in both regions; and `miniIso_AbsCharged`,
`miniIso_AbsPU`, `miniIso_AbsPho`, `miniIso_AbsNHad` are the values the computer returns
for those queries. -/
theorem C10_electron_cone_geometry (self : DictElectronMiniIsolation) (e : Electron)
    (sc : SuperCluster) (event : Option Event) (h : e.superCluster = some sc) :
    ∃ (R : ℚ) (qs : List (Query Electron)),
      (self.evaluate (some e) event).1.get "miniIso_R" = some (.fin R) ∧
      (self.evaluate (some e) event).2.m_isoComp.calls
        = self.m_isoComp.calls ++ Call.updateEvent event :: qs.map Call.sum ∧
      qs =
        [⟨.chargedAbsIso, e, R, if e.isEB then 0 else 0.015, 0, some .selfVetoNone⟩,
         ⟨.puAbsIso, e, R, if e.isEB then 0 else 0.015, 0, some .selfVetoNone⟩,
         ⟨.photonAbsIsoRaw, e, R, if e.isEB then 0 else 0.08, 0, some .selfVetoNone⟩,
         ⟨.neutralHadAbsIsoRaw, e, R, 0, 0, some .selfVetoNone⟩,
         ⟨.photonAbsIsoWeighted, e, R, if e.isEB then 0 else 0.08, 0, some .selfVetoNone⟩,
         ⟨.neutralHadAbsIsoWeighted, e, R, 0, 0, some .selfVetoNone⟩] ∧
      (∀ q ∈ qs, q.cand = e ∧ q.dR = R ∧ q.threshold = 0 ∧
        q.selfVeto = some .selfVetoNone) ∧
      (self.evaluate (some e) event).1.get "miniIso_AbsCharged"
        = some (.fin (self.m_isoComp.answer event
            ⟨.chargedAbsIso, e, R, if e.isEB then 0 else 0.015, 0, some .selfVetoNone⟩)) ∧
      (self.evaluate (some e) event).1.get "miniIso_AbsPU"
        = some (.fin (self.m_isoComp.answer event
            ⟨.puAbsIso, e, R, if e.isEB then 0 else 0.015, 0, some .selfVetoNone⟩)) ∧
      (self.evaluate (some e) event).1.get "miniIso_AbsPho"
        = some (.fin (self.m_isoComp.answer event
            ⟨.photonAbsIsoRaw, e, R, if e.isEB then 0 else 0.08, 0, some .selfVetoNone⟩)) ∧
      (self.evaluate (some e) event).1.get "miniIso_AbsNHad"
        = some (.fin (self.m_isoComp.answer event
            ⟨.neutralHadAbsIsoRaw, e, R, 0, 0, some .selfVetoNone⟩)) := by
  obtain ⟨R, rho, s, hrec, -, -, -, hch, hpu, hph, hnh, -, -, -, -, hcalls⟩ :=
    electron_valid self e sc event h
  refine ⟨R,
    [⟨.chargedAbsIso, e, R, if e.isEB then 0 else 0.015, 0, some .selfVetoNone⟩,
     ⟨.puAbsIso, e, R, if e.isEB then 0 else 0.015, 0, some .selfVetoNone⟩,
     ⟨.photonAbsIsoRaw, e, R, if e.isEB then 0 else 0.08, 0, some .selfVetoNone⟩,
     ⟨.neutralHadAbsIsoRaw, e, R, 0, 0, some .selfVetoNone⟩,
     ⟨.photonAbsIsoWeighted, e, R, if e.isEB then 0 else 0.08, 0, some .selfVetoNone⟩,
     ⟨.neutralHadAbsIsoWeighted, e, R, 0, 0, some .selfVetoNone⟩],
    ?_, ?_, rfl, ?_, ?_, ?_, ?_, ?_⟩
  · rw [hrec]; rfl
  · rw [hcalls]; rfl
  · intro q hq
    simp only [List.mem_cons, List.mem_singleton, List.not_mem_nil, or_false] at hq
    rcases hq with rfl | rfl | rfl | rfl | rfl | rfl <;> exact ⟨rfl, rfl, rfl, rfl⟩
  · rw [hrec, ← hch]; rfl
  · rw [hrec, ← hpu]; rfl
  · rw [hrec, ← hph]; rfl
  · rw [hrec, ← hnh]; rfl

/-- C10 at sample inputs: an endcap electron of pt 100 in the sample event has
`miniIso_R = 0.1`, and its charged sum is queried with inner veto 0.015. -/
theorem C10_electron_cone_geometry_witness :
    (endcapElectron 100).superCluster = some sampleSC ∧
    ∃ (R : ℚ) (qs : List (Query Electron)),
      (sampleElectronTool.evaluate (some (endcapElectron 100)) (some sampleEvent)).1.get
        "miniIso_R" = some (.fin R) ∧
      (sampleElectronTool.evaluate (some (endcapElectron 100)) (some sampleEvent)).2.m_isoComp.calls
        = sampleElectronTool.m_isoComp.calls ++
            Call.updateEvent (some sampleEvent) :: qs.map Call.sum ∧
      qs.head? = some ⟨.chargedAbsIso, endcapElectron 100, R, 0.015, 0, some .selfVetoNone⟩ := by
  obtain ⟨R, qs, hR, hcalls, hqs, -⟩ :=
    C10_electron_cone_geometry sampleElectronTool (endcapElectron 100) sampleSC
      (some sampleEvent) rfl
  refine ⟨rfl, R, qs, hR, hcalls, ?_⟩
  rw [hqs]
  simp [endcapElectron]

/-- The calls of the electron `evaluate` on a valid candidate, and the event the computer
holds afterwards. -/
theorem electron_calls_valid (self : DictElectronMiniIsolation) (candR : Electron)
    (sc : SuperCluster) (event : Option Event) (h : candR.superCluster = some sc) :
    (self.evaluate (some candR) event).2.m_isoComp.calls
      = self.m_isoComp.calls ++ Call.updateEvent event ::
          (electronQueries candR (10 / stdMin (stdMax candR.pt 50) 200)).map Call.sum ∧
    (self.evaluate (some candR) event).2.m_isoComp.event = event ∧
    (self.evaluate (some candR) event).2.m_isoComp.answer = self.m_isoComp.answer ∧
    (self.evaluate (some candR) event).2.m_ea = self.m_ea := by
  obtain ⟨R, rho, s, -, hR, -, -, -, -, -, -, -, -, -, -, hcalls⟩ :=
    electron_valid self candR sc event h
  subst hR
  refine ⟨by rw [hcalls]; rfl, ?_, ?_, ?_⟩ <;>
  simp only [DictElectronMiniIsolation.evaluate, refs_some candR sc h,
    IsolationComputer.sum, IsolationComputer.updateEvent]

/-- The calls of the muon `evaluate` on a valid candidate, and the event the computer holds
afterwards. -/
theorem muon_calls_valid (self : DictMuonMiniIsolation) (candR : Muon)
    (event : Option Event) :
    (self.evaluate (some candR) event).2.m_isoComp.calls
      = self.m_isoComp.calls ++ Call.updateEvent event ::
          (muonQueries candR (10 / stdMin (stdMax candR.pt 50) 200)).map Call.sum ∧
    (self.evaluate (some candR) event).2.m_isoComp.event = event ∧
    (self.evaluate (some candR) event).2.m_isoComp.answer = self.m_isoComp.answer ∧
    (self.evaluate (some candR) event).2.m_ea = self.m_ea := by
  obtain ⟨R, rho, s, -, hR, -, -, -, -, -, -, -, -, hcalls⟩ := muon_valid self candR event
  subst hR
  refine ⟨by rw [hcalls]; rfl, ?_, ?_, ?_⟩ <;>
  simp only [DictMuonMiniIsolation.evaluate, IsolationComputer.sum,
    IsolationComputer.updateEvent]

/-! ## C11: the threshold argument -/

/-- C11, as stated, fails: for a valid muon the pileup query and the two combined neutral
queries pass `0.5`, not `0`, as their fourth (threshold) argument. -/
theorem C11_counterexample_muon_threshold :
    (sumQueries (sampleMuonTool.evaluate (some (sampleMuon 100))
        (some sampleEvent)).2.m_isoComp.calls).map (fun q => (q.kind, q.threshold))
      = [(SumKind.chargedAbsIso, 0), (SumKind.puAbsIso, 0.5),
          (SumKind.neutralAbsIsoRaw, 0.5), (SumKind.neutralAbsIsoWeighted, 0.5)] ∧
    (0.5 : ℚ) ≠ 0 := by
  refine ⟨by decide!, by norm_num⟩

/-- C11, amended. Every sum query of the electron `evaluate` passes threshold 0, and so
does the charged query of the muon `evaluate`; the pileup, combined raw neutral and
combined weighted neutral queries of the muon `evaluate` pass threshold 0.5. An invalid
candidate gives rise to no query. -/
theorem C11_thresholds (selfE : DictElectronMiniIsolation) (selfM : DictMuonMiniIsolation)
    (e : Electron) (sc : SuperCluster) (mu : Muon) (bad : Option Electron)
    (event : Option Event) (h : e.superCluster = some sc)
    (hbad : DictElectronMiniIsolation.valid bad = false) :
    (∃ qs : List (Query Electron),
      (selfE.evaluate (some e) event).2.m_isoComp.calls
        = selfE.m_isoComp.calls ++ Call.updateEvent event :: qs.map Call.sum ∧
      qs.map (fun q => (q.kind, q.threshold))
        = [(SumKind.chargedAbsIso, 0), (SumKind.puAbsIso, 0), (SumKind.photonAbsIsoRaw, 0),
            (SumKind.neutralHadAbsIsoRaw, 0), (SumKind.photonAbsIsoWeighted, 0),
            (SumKind.neutralHadAbsIsoWeighted, 0)]) ∧
    (∃ qs : List (Query Muon),
      (selfM.evaluate (some mu) event).2.m_isoComp.calls
        = selfM.m_isoComp.calls ++ Call.updateEvent event :: qs.map Call.sum ∧
      qs.map (fun q => (q.kind, q.threshold))
        = [(SumKind.chargedAbsIso, 0), (SumKind.puAbsIso, 0.5),
            (SumKind.neutralAbsIsoRaw, 0.5), (SumKind.neutralAbsIsoWeighted, 0.5)]) ∧
    (selfE.evaluate bad event).2.m_isoComp.calls
      = selfE.m_isoComp.calls ++ [Call.updateEvent event] ∧
    (selfM.evaluate none event).2.m_isoComp.calls
      = selfM.m_isoComp.calls ++ [Call.updateEvent event] := by
  refine ⟨⟨_, (electron_calls_valid selfE e sc event h).1, rfl⟩,
    ⟨_, (muon_calls_valid selfM mu event).1, rfl⟩, ?_, ?_⟩
  · rw [(electron_invalid selfE bad event ((valid_eq_false_iff bad).mp hbad)).2]; rfl
  · rw [(muon_invalid selfM event).2]; rfl

/-- C11, amended, at sample inputs: an endcap electron of pt 100 and a muon of pt 100 in
the sample event. -/
theorem C11_thresholds_witness :
    (endcapElectron 100).superCluster = some sampleSC ∧
    DictElectronMiniIsolation.valid none = false ∧
    (∃ qs : List (Query Muon),
      (sampleMuonTool.evaluate (some (sampleMuon 100)) (some sampleEvent)).2.m_isoComp.calls
        = sampleMuonTool.m_isoComp.calls
            ++ Call.updateEvent (some sampleEvent) :: qs.map Call.sum ∧
      qs.map (fun q => (q.kind, q.threshold))
        = [(SumKind.chargedAbsIso, 0), (SumKind.puAbsIso, 0.5),
            (SumKind.neutralAbsIsoRaw, 0.5), (SumKind.neutralAbsIsoWeighted, 0.5)]) :=
  have w := C11_thresholds sampleElectronTool sampleMuonTool (endcapElectron 100) sampleSC
    (sampleMuon 100) none (some sampleEvent) rfl rfl
  ⟨rfl, rfl, w.2.1⟩

/-! ## C12: the muon cone geometry -/

/-- C12, as stated, fails: for a valid muon the pileup query has inner veto `0.01`, not
`0.5`; `0.5` is its threshold argument. -/
theorem C12_counterexample_pileup_inner_veto :
    (sumQueries (sampleMuonTool.evaluate (some (sampleMuon 100))
        (some sampleEvent)).2.m_isoComp.calls).map
          (fun q => (q.kind, q.innerR, q.threshold))
      = [(SumKind.chargedAbsIso, 0.0001, 0), (SumKind.puAbsIso, 0.01, 0.5),
          (SumKind.neutralAbsIsoRaw, 0.01, 0.5), (SumKind.neutralAbsIsoWeighted, 0.01, 0.5)] ∧
    (0.01 : ℚ) ≠ 0.5 := by
  refine ⟨by decide!, by norm_num⟩

/-- C12, amended. Muon cone geometry: for every valid muon the computer receives
`updateEvent` and then four sum queries on the candidate, all with the outer radius
`miniIso_R` and with the self-veto argument left out; the inner veto is the constant
0.0001 for the charged sum and the constant 0.01 for the pileup sum and for the combined
raw and weighted neutral sums; the threshold is 0 for the charged sum and 0.5 for the
other three; and `miniIso_AbsCharged` and `miniIso_AbsPU` are the values the computer
returns for the charged and the pileup query. -/
theorem C12_muon_cone_geometry (self : DictMuonMiniIsolation) (mu : Muon)
    (event : Option Event) :
    ∃ R : ℚ,
      (self.evaluate (some mu) event).1.get "miniIso_R" = some (.fin R) ∧
      (self.evaluate (some mu) event).2.m_isoComp.calls
        = self.m_isoComp.calls ++
            [Call.updateEvent event,
             Call.sum ⟨.chargedAbsIso, mu, R, 0.0001, 0, none⟩,
             Call.sum ⟨.puAbsIso, mu, R, 0.01, 0.5, none⟩,
             Call.sum ⟨.neutralAbsIsoRaw, mu, R, 0.01, 0.5, none⟩,
             Call.sum ⟨.neutralAbsIsoWeighted, mu, R, 0.01, 0.5, none⟩] ∧
      (self.evaluate (some mu) event).1.get "miniIso_AbsCharged"
        = some (.fin (self.m_isoComp.answer event ⟨.chargedAbsIso, mu, R, 0.0001, 0, none⟩)) ∧
      (self.evaluate (some mu) event).1.get "miniIso_AbsPU"
        = some (.fin (self.m_isoComp.answer event ⟨.puAbsIso, mu, R, 0.01, 0.5, none⟩)) := by
  obtain ⟨R, rho, s, hrec, -, -, -, hch, hpu, -, -, -, -, hcalls⟩ := muon_valid self mu event
  refine ⟨R, ?_, hcalls, ?_, ?_⟩
  · rw [hrec]; rfl
  · rw [hrec, ← hch]; rfl
  · rw [hrec, ← hpu]; rfl

/-! ## C13: the range of the cone radius -/

/-- The cone radius of a valid candidate lies in `[0.05, 0.2]`, whatever the pt. -/
theorem coneRadius_range (pt : ℚ) :
    0.05 ≤ 10 / stdMin (stdMax pt 50) 200 ∧ 10 / stdMin (stdMax pt 50) 200 ≤ 0.2 := by
  have h1 : 50 ≤ stdMin (stdMax pt 50) 200 := by
    unfold stdMin stdMax
    split_ifs <;> linarith
  have h2 : stdMin (stdMax pt 50) 200 ≤ 200 := by
    unfold stdMin stdMax
    split_ifs <;> linarith
  have hpos : (0 : ℚ) < stdMin (stdMax pt 50) 200 := by linarith
  constructor
  · rw [le_div_iff₀ hpos]; norm_num; linarith
  · rw [div_le_iff₀ hpos]; norm_num; linarith

/-- C13. For every valid candidate (electron or muon) and every pt, zero and negative pt
included, `miniIso_R` lies in the closed range `[0.05, 0.2]`; and `miniIso_R = 0` if and
only if the candidate is invalid. -/
theorem C13_cone_radius_range (selfE : DictElectronMiniIsolation)
    (selfM : DictMuonMiniIsolation) (cand : Option Electron) (mu : Option Muon)
    (event : Option Event) :
    (∃ R : ℚ,
      (selfE.evaluate cand event).1.get "miniIso_R" = some (.fin R) ∧
      (DictElectronMiniIsolation.valid cand = true → 0.05 ≤ R ∧ R ≤ 0.2) ∧
      (R = 0 ↔ DictElectronMiniIsolation.valid cand = false)) ∧
    (∃ R : ℚ,
      (selfM.evaluate mu event).1.get "miniIso_R" = some (.fin R) ∧
      (mu.isSome = true → 0.05 ≤ R ∧ R ≤ 0.2) ∧
      (R = 0 ↔ mu = none)) := by
  constructor
  · cases hr : DictElectronMiniIsolation.refs cand with
    | none =>
      have hv : DictElectronMiniIsolation.valid cand = false := (valid_eq_false_iff cand).mpr hr
      refine ⟨0, ?_, ?_, ?_⟩
      · rw [(electron_invalid selfE cand event hr).1]; rfl
      · intro hc; rw [hv] at hc; exact absurd hc (by decide)
      · simp [hv]
    | some p =>
      obtain ⟨e, sc⟩ := p
      have hv : DictElectronMiniIsolation.valid cand = true := by
        simp [DictElectronMiniIsolation.valid, hr]
      have hcand : cand = some e ∧ e.superCluster = some sc := by
        cases cand with
        | none => simp [DictElectronMiniIsolation.refs] at hr
        | some e' =>
          cases hsc : e'.superCluster with
          | none => simp [DictElectronMiniIsolation.refs, hsc] at hr
          | some sc' =>
            simp [DictElectronMiniIsolation.refs, hsc] at hr
            obtain ⟨rfl, rfl⟩ := hr
            exact ⟨rfl, hsc⟩
      obtain ⟨rfl, hsc⟩ := hcand
      have hrange := coneRadius_range e.pt
      refine ⟨_, electron_R_valid selfE e sc event hsc, fun _ => hrange, ?_⟩
      constructor
      · intro h0
        rw [h0] at hrange
        norm_num at hrange
      · intro hc; rw [hv] at hc; exact absurd hc (by decide)
  · cases mu with
    | none =>
      refine ⟨0, ?_, ?_, ?_⟩
      · rw [(muon_invalid selfM event).1]; rfl
      · intro hc; exact absurd hc (by decide)
      · simp
    | some m =>
      have hrange := coneRadius_range m.pt
      refine ⟨_, muon_R_valid selfM m event, fun _ => hrange, ?_⟩
      constructor
      · intro h0
        rw [h0] at hrange
        norm_num at hrange
      · intro hc; exact absurd hc (by simp)

/-- C13 at sample inputs: an electron of pt 0 and a muon of pt -5 have `miniIso_R = 0.2`,
inside the range; the null candidates have `miniIso_R = 0`. -/
theorem C13_cone_radius_range_witness :
    (sampleElectronTool.evaluate (some (barrelElectron 0)) none).1.get "miniIso_R"
      = some (.fin 0.2) ∧
    (sampleMuonTool.evaluate (some (sampleMuon (-5))) none).1.get "miniIso_R"
      = some (.fin 0.2) ∧
    (∃ R : ℚ, (sampleElectronTool.evaluate (some (barrelElectron 0)) none).1.get "miniIso_R"
      = some (.fin R) ∧ 0.05 ≤ R ∧ R ≤ 0.2) ∧
    (sampleElectronTool.evaluate none none).1.get "miniIso_R" = some (.fin 0) := by
  obtain ⟨⟨R, hR, hrange, -⟩, -⟩ := C13_cone_radius_range sampleElectronTool sampleMuonTool
    (some (barrelElectron 0)) none none
  exact ⟨by decide!, by decide!, ⟨R, hR, hrange rfl⟩, by decide!⟩

/-! ## C14: the muon `evaluate` and the photon and hadron sums -/

/-- C14. The muon `evaluate` never queries a photon or a neutral-hadron sum: the sum
queries of a call are of the kinds charged, pileup, combined raw neutral and combined
weighted neutral only; and two runs on the same candidate and event whose computers agree
on those four sums, and differ arbitrarily on the photon and neutral-hadron sums, return
the same record. -/
theorem C14_muon_ignores_photon_hadron (self1 self2 : DictMuonMiniIsolation)
    (mu : Option Muon) (event : Option Event) (hea : self1.m_ea = self2.m_ea)
    (hagree : ∀ (ev : Option Event) (q : Query Muon),
      (q.kind = .chargedAbsIso ∨ q.kind = .puAbsIso ∨ q.kind = .neutralAbsIsoRaw ∨
        q.kind = .neutralAbsIsoWeighted) →
      self1.m_isoComp.answer ev q = self2.m_isoComp.answer ev q) :
    (self1.evaluate mu event).1 = (self2.evaluate mu event).1 ∧
    (∃ qs : List (Query Muon),
      (self1.evaluate mu event).2.m_isoComp.calls
        = self1.m_isoComp.calls ++ Call.updateEvent event :: qs.map Call.sum ∧
      ∀ q ∈ qs, q.kind = .chargedAbsIso ∨ q.kind = .puAbsIso ∨ q.kind = .neutralAbsIsoRaw ∨
        q.kind = .neutralAbsIsoWeighted) := by
  cases mu with
  | none =>
    refine ⟨?_, [], ?_, ?_⟩
    · rw [(muon_invalid self1 event).1, (muon_invalid self2 event).1]
    · rw [(muon_invalid self1 event).2]; rfl
    · intro q hq; exact absurd hq (List.not_mem_nil q)
  | some m =>
    obtain ⟨R, rho, s, hrec, hR, hr1, hr2, hch, hpu, hraw, hw, hA, hD, -⟩ :=
      muon_valid self1 m event
    obtain ⟨R', rho', s', hrec', hR', hr1', hr2', hch', hpu', hraw', hw', hA', hD', -⟩ :=
      muon_valid self2 m event
    have hRR : R' = R := by rw [hR, hR']
    subst hRR
    have hrho : rho' = rho := by
      cases event with
      | none => rw [hr2 rfl, hr2' rfl]
      | some ev => rw [hr1 ev rfl, hr1' ev rfl]
    subst hrho
    have e1 : s.absIsoCharged = s'.absIsoCharged := by
      rw [hch, hch']; exact hagree _ _ (Or.inl rfl)
    have e2 : s.absIsoPU = s'.absIsoPU := by
      rw [hpu, hpu']; exact hagree _ _ (Or.inr (Or.inl rfl))
    have e3 : s.isoNeutralRaw = s'.isoNeutralRaw := by
      rw [hraw, hraw']; exact hagree _ _ (Or.inr (Or.inr (Or.inl rfl)))
    have e4 : s.isoNeutralWeights = s'.isoNeutralWeights := by
      rw [hw, hw']; exact hagree _ _ (Or.inr (Or.inr (Or.inr rfl)))
    have e5 : s.isoNeutralRhoArea = s'.isoNeutralRhoArea := by
      rw [hA, hA', e3, hea]
    have e6 : s.isoNeutralDeltaBeta = s'.isoNeutralDeltaBeta := by
      rw [hD, hD', e3, e2]
    have hs : s = s' := by
      cases s; cases s'
      simp only [MuonSums.mk.injEq]
      exact ⟨e1, e2, e3, e4, e5, e6⟩
    refine ⟨by rw [hrec, hrec', hs], _, (muon_calls_valid self1 m event).1, ?_⟩
    intro q hq
    simp only [muonQueries, List.mem_cons, List.mem_singleton, List.not_mem_nil,
      or_false] at hq
    rcases hq with rfl | rfl | rfl | rfl
    · exact Or.inl rfl
    · exact Or.inr (Or.inl rfl)
    · exact Or.inr (Or.inr (Or.inl rfl))
    · exact Or.inr (Or.inr (Or.inr rfl))

/-- C14 at sample inputs: two muon tools whose sums differ on the photon and neutral-hadron
kinds only give the same record for a muon of pt 100. -/
theorem C14_muon_ignores_photon_hadron_witness :
    sampleMuonTool.m_isoComp.answer (some sampleEvent)
        ⟨.photonAbsIsoRaw, sampleMuon 100, 1 / 10, 0, 0, none⟩
      ≠ otherMuonTool.m_isoComp.answer (some sampleEvent)
        ⟨.photonAbsIsoRaw, sampleMuon 100, 1 / 10, 0, 0, none⟩ ∧
    (sampleMuonTool.evaluate (some (sampleMuon 100)) (some sampleEvent)).1
      = (otherMuonTool.evaluate (some (sampleMuon 100)) (some sampleEvent)).1 := by
  refine ⟨by decide!, (C14_muon_ignores_photon_hadron sampleMuonTool otherMuonTool
    (some (sampleMuon 100)) (some sampleEvent) rfl ?_).1⟩
  intro ev q hq
  simp only [sampleMuonTool, otherMuonTool, sampleAnswer, otherAnswer]
  rcases hq with h | h | h | h <;> rw [h]

/-! ## C15 and C16: the rhoArea and deltaBeta schemes -/

theorem stdMax_eq_max (a b : ℚ) : stdMax a b = max a b := by
  unfold stdMax
  split_ifs with h
  · exact (max_eq_right (le_of_lt h)).symm
  · exact (max_eq_left (not_lt.mp h)).symm

/-- C15. The rhoArea scheme: for every valid candidate
`miniIso_AbsNeutral_rhoArea = max(0, N - rho * A(eta) * (R/0.3)²)`, where `N` is
`miniIso_AbsNeutral_raw` (`miniIso_AbsPho + miniIso_AbsNHad` for an electron, the combined
raw neutral sum of the computer for a muon), `R` is `miniIso_R`, `rho` is the pileup
density of the event (0 without an event), and the effective area is looked up at the
supercluster eta for an electron and at the candidate's own eta for a muon. -/
theorem C15_rhoArea_scheme (selfE : DictElectronMiniIsolation)
    (selfM : DictMuonMiniIsolation) (e : Electron) (sc : SuperCluster) (mu : Muon)
    (event : Option Event) (h : e.superCluster = some sc) :
    (∃ N R rho pho nhad : ℚ,
      (selfE.evaluate (some e) event).1.get "miniIso_AbsNeutral_raw" = some (.fin N) ∧
      (selfE.evaluate (some e) event).1.get "miniIso_R" = some (.fin R) ∧
      (∀ ev, event = some ev → rho = getRho ev) ∧ (event = none → rho = 0) ∧
      (selfE.evaluate (some e) event).1.get "miniIso_AbsPho" = some (.fin pho) ∧
      (selfE.evaluate (some e) event).1.get "miniIso_AbsNHad" = some (.fin nhad) ∧
      N = pho + nhad ∧
      (selfE.evaluate (some e) event).1.get "miniIso_AbsNeutral_rhoArea"
        = some (.fin (max 0 (N - rho * selfE.m_ea.getEffectiveArea sc.eta * (R / 0.3) ^ 2)))) ∧
    (∃ N R rho : ℚ,
      (selfM.evaluate (some mu) event).1.get "miniIso_AbsNeutral_raw" = some (.fin N) ∧
      (selfM.evaluate (some mu) event).1.get "miniIso_R" = some (.fin R) ∧
      (∀ ev, event = some ev → rho = getRho ev) ∧ (event = none → rho = 0) ∧
      N = selfM.m_isoComp.answer event ⟨.neutralAbsIsoRaw, mu, R, 0.01, 0.5, none⟩ ∧
      (selfM.evaluate (some mu) event).1.get "miniIso_AbsNeutral_rhoArea"
        = some (.fin (max 0 (N - rho * selfM.m_ea.getEffectiveArea mu.eta * (R / 0.3) ^ 2)))) := by
  obtain ⟨R, rho, s, hrec, -, hr1, hr2, -, -, -, -, hraw, -, hA, -, -⟩ :=
    electron_valid selfE e sc event h
  obtain ⟨R', rho', s', hrec', -, hr1', hr2', -, -, hraw', -, hA', -, -⟩ :=
    muon_valid selfM mu event
  rw [hrec, hrec']
  refine ⟨⟨s.isoNeutralRaw, R, rho, s.isoPhotRaw, s.isoNHadRaw, rfl, rfl, hr1, hr2, rfl, rfl,
      hraw, ?_⟩,
    ⟨s'.isoNeutralRaw, R', rho', rfl, rfl, hr1', hr2', hraw', ?_⟩⟩
  · rw [← stdMax_eq_max, ← hA]; rfl
  · rw [← stdMax_eq_max, ← hA']; rfl

/-- C15 at sample inputs: a barrel electron of pt 100 in the sample event (rho = 2,
effective area 1/10, `R = 0.1`, `N = 2 + 3`) has
`miniIso_AbsNeutral_rhoArea = 5 - 2 * (1/10) * (1/3)² = 224/45`. -/
theorem C15_rhoArea_scheme_witness :
    (barrelElectron 100).superCluster = some sampleSC ∧
    (∃ N R rho pho nhad : ℚ,
      (sampleElectronTool.evaluate (some (barrelElectron 100)) (some sampleEvent)).1.get
        "miniIso_AbsNeutral_raw" = some (.fin N) ∧
      (sampleElectronTool.evaluate (some (barrelElectron 100)) (some sampleEvent)).1.get
        "miniIso_R" = some (.fin R) ∧
      (∀ ev, some sampleEvent = some ev → rho = getRho ev) ∧
      (some sampleEvent = none → rho = 0) ∧
      (sampleElectronTool.evaluate (some (barrelElectron 100)) (some sampleEvent)).1.get
        "miniIso_AbsPho" = some (.fin pho) ∧
      (sampleElectronTool.evaluate (some (barrelElectron 100)) (some sampleEvent)).1.get
        "miniIso_AbsNHad" = some (.fin nhad) ∧
      N = pho + nhad ∧
      (sampleElectronTool.evaluate (some (barrelElectron 100)) (some sampleEvent)).1.get
        "miniIso_AbsNeutral_rhoArea"
        = some (.fin (max 0 (N - rho * sampleElectronTool.m_ea.getEffectiveArea sampleSC.eta
            * (R / 0.3) ^ 2)))) ∧
    (sampleElectronTool.evaluate (some (barrelElectron 100)) (some sampleEvent)).1.get
      "miniIso_AbsNeutral_rhoArea" = some (.fin (224 / 45)) :=
  ⟨rfl, (C15_rhoArea_scheme sampleElectronTool sampleMuonTool (barrelElectron 100) sampleSC
    (sampleMuon 100) (some sampleEvent) rfl).1, by decide!⟩

/-- C16. The deltaBeta scheme: for every valid candidate (electron or muon)
`miniIso_AbsNeutral_deltaBeta = max(0, miniIso_AbsNeutral_raw - 0.5 * miniIso_AbsPU)`,
where `miniIso_AbsNeutral_raw` is `miniIso_AbsPho + miniIso_AbsNHad` for an electron and
the combined raw neutral sum of the computer for a muon. -/
theorem C16_deltaBeta_scheme (selfE : DictElectronMiniIsolation)
    (selfM : DictMuonMiniIsolation) (e : Electron) (sc : SuperCluster) (mu : Muon)
    (event : Option Event) (h : e.superCluster = some sc) :
    (∃ N pu pho nhad : ℚ,
      (selfE.evaluate (some e) event).1.get "miniIso_AbsNeutral_raw" = some (.fin N) ∧
      (selfE.evaluate (some e) event).1.get "miniIso_AbsPU" = some (.fin pu) ∧
      (selfE.evaluate (some e) event).1.get "miniIso_AbsPho" = some (.fin pho) ∧
      (selfE.evaluate (some e) event).1.get "miniIso_AbsNHad" = some (.fin nhad) ∧
      N = pho + nhad ∧
      (selfE.evaluate (some e) event).1.get "miniIso_AbsNeutral_deltaBeta"
        = some (.fin (max 0 (N - 0.5 * pu)))) ∧
    (∃ N pu R : ℚ,
      (selfM.evaluate (some mu) event).1.get "miniIso_AbsNeutral_raw" = some (.fin N) ∧
      (selfM.evaluate (some mu) event).1.get "miniIso_AbsPU" = some (.fin pu) ∧
      (selfM.evaluate (some mu) event).1.get "miniIso_R" = some (.fin R) ∧
      N = selfM.m_isoComp.answer event ⟨.neutralAbsIsoRaw, mu, R, 0.01, 0.5, none⟩ ∧
      (selfM.evaluate (some mu) event).1.get "miniIso_AbsNeutral_deltaBeta"
        = some (.fin (max 0 (N - 0.5 * pu)))) := by
  obtain ⟨R, rho, s, hrec, -, -, -, -, -, -, -, hraw, -, -, hD, -⟩ :=
    electron_valid selfE e sc event h
  obtain ⟨R', rho', s', hrec', -, -, -, -, -, hraw', -, -, hD', -⟩ :=
    muon_valid selfM mu event
  rw [hrec, hrec']
  refine ⟨⟨s.isoNeutralRaw, s.absIsoPU, s.isoPhotRaw, s.isoNHadRaw, rfl, rfl, rfl, rfl,
      hraw, ?_⟩,
    ⟨s'.isoNeutralRaw, s'.absIsoPU, R', rfl, rfl, rfl, hraw', ?_⟩⟩
  · rw [← stdMax_eq_max, ← hD]; rfl
  · rw [← stdMax_eq_max, ← hD']; rfl

/-- C16 at sample inputs: a barrel electron of pt 100 in the sample event (`N = 2 + 3`,
pileup sum 4) has `miniIso_AbsNeutral_deltaBeta = 5 - 0.5 * 4 = 3`. -/
theorem C16_deltaBeta_scheme_witness :
    (barrelElectron 100).superCluster = some sampleSC ∧
    (∃ N pu pho nhad : ℚ,
      (sampleElectronTool.evaluate (some (barrelElectron 100)) (some sampleEvent)).1.get
        "miniIso_AbsNeutral_raw" = some (.fin N) ∧
      (sampleElectronTool.evaluate (some (barrelElectron 100)) (some sampleEvent)).1.get
        "miniIso_AbsPU" = some (.fin pu) ∧
      (sampleElectronTool.evaluate (some (barrelElectron 100)) (some sampleEvent)).1.get
        "miniIso_AbsPho" = some (.fin pho) ∧
      (sampleElectronTool.evaluate (some (barrelElectron 100)) (some sampleEvent)).1.get
        "miniIso_AbsNHad" = some (.fin nhad) ∧
      N = pho + nhad ∧
      (sampleElectronTool.evaluate (some (barrelElectron 100)) (some sampleEvent)).1.get
        "miniIso_AbsNeutral_deltaBeta" = some (.fin (max 0 (N - 0.5 * pu)))) ∧
    (sampleElectronTool.evaluate (some (barrelElectron 100)) (some sampleEvent)).1.get
      "miniIso_AbsNeutral_deltaBeta" = some (.fin 3) :=
  ⟨rfl, (C16_deltaBeta_scheme sampleElectronTool sampleMuonTool (barrelElectron 100) sampleSC
    (sampleMuon 100) (some sampleEvent) rfl).1, by decide!⟩

/-! ## C17: the fields that do not depend on rho -/

theorem refs_eq_some (cand : Option Electron) (e : Electron) (sc : SuperCluster)
    (hr : DictElectronMiniIsolation.refs cand = some (e, sc)) :
    cand = some e ∧ e.superCluster = some sc := by
  cases cand with
  | none => simp [DictElectronMiniIsolation.refs] at hr
  | some e' =>
    cases hsc : e'.superCluster with
    | none => simp [DictElectronMiniIsolation.refs, hsc] at hr
    | some sc' =>
      simp [DictElectronMiniIsolation.refs, hsc] at hr
      obtain ⟨rfl, rfl⟩ := hr
      exact ⟨rfl, hsc⟩

/-- C18. Without an event rho is taken as 0, so that for every valid candidate (electron or
muon), whatever the effective areas, `miniIso_AbsNeutral_rhoArea` is
`max(0, miniIso_AbsNeutral_raw)`; when the raw neutral sum is non-negative the three
rhoArea fields equal the three raw fields. -/
theorem C18_no_event_rho_is_zero (selfE : DictElectronMiniIsolation)
    (selfM : DictMuonMiniIsolation) (e : Electron) (sc : SuperCluster) (mu : Muon)
    (h : e.superCluster = some sc) :
    (∃ N : ℚ,
      (selfE.evaluate (some e) none).1.get "miniIso_AbsNeutral_raw" = some (.fin N) ∧
      (selfE.evaluate (some e) none).1.get "miniIso_AbsNeutral_rhoArea"
        = some (.fin (max 0 N)) ∧
      (0 ≤ N →
        (selfE.evaluate (some e) none).1.get "miniIso_AbsNeutral_rhoArea"
          = (selfE.evaluate (some e) none).1.get "miniIso_AbsNeutral_raw" ∧
        (selfE.evaluate (some e) none).1.get "miniIso_Abs_rhoArea"
          = (selfE.evaluate (some e) none).1.get "miniIso_Abs_raw" ∧
        (selfE.evaluate (some e) none).1.get "miniIso_Rel_rhoArea"
          = (selfE.evaluate (some e) none).1.get "miniIso_Rel_raw")) ∧
    (∃ N : ℚ,
      (selfM.evaluate (some mu) none).1.get "miniIso_AbsNeutral_raw" = some (.fin N) ∧
      (selfM.evaluate (some mu) none).1.get "miniIso_AbsNeutral_rhoArea"
        = some (.fin (max 0 N)) ∧
      (0 ≤ N →
        (selfM.evaluate (some mu) none).1.get "miniIso_AbsNeutral_rhoArea"
          = (selfM.evaluate (some mu) none).1.get "miniIso_AbsNeutral_raw" ∧
        (selfM.evaluate (some mu) none).1.get "miniIso_Abs_rhoArea"
          = (selfM.evaluate (some mu) none).1.get "miniIso_Abs_raw" ∧
        (selfM.evaluate (some mu) none).1.get "miniIso_Rel_rhoArea"
          = (selfM.evaluate (some mu) none).1.get "miniIso_Rel_raw")) := by
  obtain ⟨R, rho, s, hrec, -, -, hr2, -, -, -, -, -, -, hA, -, -⟩ :=
    electron_valid selfE e sc none h
  obtain ⟨R', rho', s', hrec', -, -, hr2', -, -, -, -, hA', -, -⟩ := muon_valid selfM mu none
  rw [hr2 rfl, zero_mul, zero_mul, sub_zero, stdMax_eq_max] at hA
  rw [hr2' rfl, zero_mul, zero_mul, sub_zero, stdMax_eq_max] at hA'
  rw [hrec, hrec']
  refine ⟨⟨s.isoNeutralRaw, rfl, ?_, ?_⟩, ⟨s'.isoNeutralRaw, rfl, ?_, ?_⟩⟩
  · rw [← hA]; rfl
  · intro hN
    have heq : s.isoNeutralRhoArea = s.isoNeutralRaw := by rw [hA]; exact max_eq_right hN
    simp only [electronRecord, Dict.get, List.lookup, heq]
    exact ⟨rfl, rfl, rfl⟩
  · rw [← hA']; rfl
  · intro hN
    have heq : s'.isoNeutralRhoArea = s'.isoNeutralRaw := by rw [hA']; exact max_eq_right hN
    simp only [muonRecord, Dict.get, List.lookup, heq]
    exact ⟨rfl, rfl, rfl⟩

/-- C18 at sample inputs: an endcap electron of pt 100 without an event, with the sample
sums (`miniIso_AbsNeutral_raw = 5`). -/
theorem C18_no_event_rho_is_zero_witness :
    (endcapElectron 100).superCluster = some sampleSC ∧
    (sampleElectronTool.evaluate (some (endcapElectron 100)) none).1.get
      "miniIso_AbsNeutral_raw" = some (.fin 5) ∧
    (sampleElectronTool.evaluate (some (endcapElectron 100)) none).1.get "miniIso_Rel_rhoArea"
      = (sampleElectronTool.evaluate (some (endcapElectron 100)) none).1.get
          "miniIso_Rel_raw" := by
  obtain ⟨⟨N, hN, -, hpos⟩, -⟩ := C18_no_event_rho_is_zero sampleElectronTool sampleMuonTool
    (endcapElectron 100) sampleSC (sampleMuon 100) rfl
  have h5 : (sampleElectronTool.evaluate (some (endcapElectron 100)) none).1.get
      "miniIso_AbsNeutral_raw" = some (.fin 5) := by decide!
  have hN5 : N = 5 := by
    rw [hN] at h5
    injection h5 with h5
    injection h5
  exact ⟨rfl, h5, (hpos (by rw [hN5]; norm_num)).2.2⟩

/-! ## C19: the event is handed over before the sums are queried -/

/-- One electron `evaluate` call: `updateEvent` with the event of the call, then sum
queries only; afterwards the computer holds that event. -/
theorem electron_call_block (self : DictElectronMiniIsolation) (cand : Option Electron)
    (event : Option Event) :
    ∃ qs : List (Query Electron),
      (self.evaluate cand event).2.m_isoComp.calls
        = self.m_isoComp.calls ++ Call.updateEvent event :: qs.map Call.sum ∧
      (self.evaluate cand event).2.m_isoComp.event = event := by
  cases hr : DictElectronMiniIsolation.refs cand with
  | none =>
    refine ⟨[], ?_, ?_⟩ <;> rw [(electron_invalid self cand event hr).2] <;> rfl
  | some p =>
    obtain ⟨e, sc⟩ := p
    obtain ⟨rfl, hsc⟩ := refs_eq_some cand e sc hr
    exact ⟨_, (electron_calls_valid self e sc event hsc).1,
      (electron_calls_valid self e sc event hsc).2.1⟩

/-- One muon `evaluate` call: `updateEvent` with the event of the call, then sum queries
only; afterwards the computer holds that event. -/
theorem muon_call_block (self : DictMuonMiniIsolation) (cand : Option Muon)
    (event : Option Event) :
    ∃ qs : List (Query Muon),
      (self.evaluate cand event).2.m_isoComp.calls
        = self.m_isoComp.calls ++ Call.updateEvent event :: qs.map Call.sum ∧
      (self.evaluate cand event).2.m_isoComp.event = event := by
  cases cand with
  | none =>
    refine ⟨[], ?_, ?_⟩ <;> rw [(muon_invalid self event).2] <;> rfl
  | some m =>
    exact ⟨_, (muon_calls_valid self m event).1, (muon_calls_valid self m event).2.1⟩

theorem electron_run_blocks (inputs : List (Option Electron × Option Event)) :
    ∀ self : DictElectronMiniIsolation, ∃ qss : List (List (Query Electron)),
      qss.length = inputs.length ∧
      (self.run inputs).m_isoComp.calls
        = self.m_isoComp.calls ++ handOffBlocks (inputs.map Prod.snd) qss := by
  induction inputs with
  | nil => intro self; exact ⟨[], rfl, by simp [DictElectronMiniIsolation.run, handOffBlocks]⟩
  | cons inp rest ih =>
    intro self
    obtain ⟨cand, event⟩ := inp
    obtain ⟨qs, hqs, -⟩ := electron_call_block self cand event
    obtain ⟨qss, hlen, hrest⟩ := ih (self.evaluate cand event).2
    refine ⟨qs :: qss, by simp [hlen], ?_⟩
    simp only [DictElectronMiniIsolation.run, hrest, hqs, List.map_cons, handOffBlocks,
      List.append_assoc, List.cons_append]

theorem muon_run_blocks (inputs : List (Option Muon × Option Event)) :
    ∀ self : DictMuonMiniIsolation, ∃ qss : List (List (Query Muon)),
      qss.length = inputs.length ∧
      (self.run inputs).m_isoComp.calls
        = self.m_isoComp.calls ++ handOffBlocks (inputs.map Prod.snd) qss := by
  induction inputs with
  | nil => intro self; exact ⟨[], rfl, by simp [DictMuonMiniIsolation.run, handOffBlocks]⟩
  | cons inp rest ih =>
    intro self
    obtain ⟨cand, event⟩ := inp
    obtain ⟨qs, hqs, -⟩ := muon_call_block self cand event
    obtain ⟨qss, hlen, hrest⟩ := ih (self.evaluate cand event).2
    refine ⟨qs :: qss, by simp [hlen], ?_⟩
    simp only [DictMuonMiniIsolation.run, hrest, hqs, List.map_cons, handOffBlocks,
      List.append_assoc, List.cons_append]

/-- C19. No sum query is issued against the state of another event. In every call of the
electron or the muon `evaluate` the computer first receives `updateEvent` with the event
of the call and then sum queries only, and the record does not depend on the event the
computer held before the call. Hence in any sequence of `evaluate` calls on one object,
over any candidates and events, the calls received are, call after call, the hand-off of
that call's event followed by that call's sum queries: every sum query is preceded by the
hand-off of its own event, with no other hand-off in between. -/
theorem C19_hand_off_before_queries (selfE : DictElectronMiniIsolation)
    (selfM : DictMuonMiniIsolation) (cand : Option Electron) (mu : Option Muon)
    (event before : Option Event) (inputsE : List (Option Electron × Option Event))
    (inputsM : List (Option Muon × Option Event)) :
    (∃ qs : List (Query Electron),
      (selfE.evaluate cand event).2.m_isoComp.calls
        = selfE.m_isoComp.calls ++ Call.updateEvent event :: qs.map Call.sum ∧
      (selfE.evaluate cand event).2.m_isoComp.event = event) ∧
    (∃ qs : List (Query Muon),
      (selfM.evaluate mu event).2.m_isoComp.calls
        = selfM.m_isoComp.calls ++ Call.updateEvent event :: qs.map Call.sum ∧
      (selfM.evaluate mu event).2.m_isoComp.event = event) ∧
    (DictElectronMiniIsolation.evaluate
        ⟨{ selfE.m_isoComp with event := before }, selfE.m_ea⟩ cand event).1
      = (selfE.evaluate cand event).1 ∧
    (DictMuonMiniIsolation.evaluate
        ⟨{ selfM.m_isoComp with event := before }, selfM.m_ea⟩ mu event).1
      = (selfM.evaluate mu event).1 ∧
    (∃ qss : List (List (Query Electron)),
      qss.length = inputsE.length ∧
      (selfE.run inputsE).m_isoComp.calls
        = selfE.m_isoComp.calls ++ handOffBlocks (inputsE.map Prod.snd) qss) ∧
    (∃ qss : List (List (Query Muon)),
      qss.length = inputsM.length ∧
      (selfM.run inputsM).m_isoComp.calls
        = selfM.m_isoComp.calls ++ handOffBlocks (inputsM.map Prod.snd) qss) := by
  refine ⟨electron_call_block selfE cand event, muon_call_block selfM mu event, ?_, ?_,
    electron_run_blocks inputsE selfE, muon_run_blocks inputsM selfM⟩
  · simp only [DictElectronMiniIsolation.evaluate, IsolationComputer.sum,
      IsolationComputer.updateEvent]
  · simp only [DictMuonMiniIsolation.evaluate, IsolationComputer.sum,
      IsolationComputer.updateEvent]

/-! ## C20: the order of the schemes -/

theorem stdMax_zero_sub_le (n t : ℚ) (hn : 0 ≤ n) (ht : 0 ≤ t) : stdMax 0 (n - t) ≤ n := by
  unfold stdMax
  split_ifs <;> linarith

theorem stdMax_zero_mono (a b : ℚ) (h : a ≤ b) : stdMax 0 a ≤ stdMax 0 b := by
  unfold stdMax
  split_ifs <;> linarith

/-- The order of the schemes, for one run of each method. -/
theorem scheme_ordering (selfE : DictElectronMiniIsolation)
    (selfM : DictMuonMiniIsolation) (e : Electron) (sc : SuperCluster) (mu : Muon)
    (event : Option Event) (h : e.superCluster = some sc)
    (hsumsE : ∀ q, 0 ≤ selfE.m_isoComp.answer event q)
    (hsumsM : ∀ q, 0 ≤ selfM.m_isoComp.answer event q)
    (hrho : ∀ ev, event = some ev → 0 ≤ getRho ev)
    (heaE : 0 ≤ selfE.m_ea.getEffectiveArea sc.eta)
    (heaM : 0 ≤ selfM.m_ea.getEffectiveArea mu.eta) :
    (∃ ch aA aD aR : ℚ,
      (selfE.evaluate (some e) event).1.get "miniIso_AbsCharged" = some (.fin ch) ∧
      (selfE.evaluate (some e) event).1.get "miniIso_Abs_rhoArea" = some (.fin aA) ∧
      (selfE.evaluate (some e) event).1.get "miniIso_Abs_deltaBeta" = some (.fin aD) ∧
      (selfE.evaluate (some e) event).1.get "miniIso_Abs_raw" = some (.fin aR) ∧
      ch ≤ aA ∧ aA ≤ aR ∧ ch ≤ aD ∧ aD ≤ aR) ∧
    (∃ ch aA aD aR : ℚ,
      (selfM.evaluate (some mu) event).1.get "miniIso_AbsCharged" = some (.fin ch) ∧
      (selfM.evaluate (some mu) event).1.get "miniIso_Abs_rhoArea" = some (.fin aA) ∧
      (selfM.evaluate (some mu) event).1.get "miniIso_Abs_deltaBeta" = some (.fin aD) ∧
      (selfM.evaluate (some mu) event).1.get "miniIso_Abs_raw" = some (.fin aR) ∧
      ch ≤ aA ∧ aA ≤ aR ∧ ch ≤ aD ∧ aD ≤ aR) := by
  obtain ⟨R, rho, s, hrec, -, hr1, hr2, -, hpu, hph, hnh, hraw, -, hA, hD, -⟩ :=
    electron_valid selfE e sc event h
  obtain ⟨R', rho', s', hrec', -, hr1', hr2', -, hpu', hraw', -, hA', hD', -⟩ :=
    muon_valid selfM mu event
  have hrho0 : 0 ≤ rho := by
    cases event with
    | none => rw [hr2 rfl]
    | some ev => rw [hr1 ev rfl]; exact hrho ev rfl
  have hrho0' : 0 ≤ rho' := by
    cases event with
    | none => rw [hr2' rfl]
    | some ev => rw [hr1' ev rfl]; exact hrho ev rfl
  have hN : 0 ≤ s.isoNeutralRaw := by
    rw [hraw, hph, hnh]; exact add_nonneg (hsumsE _) (hsumsE _)
  have hN' : 0 ≤ s'.isoNeutralRaw := by rw [hraw']; exact hsumsM _
  have hP : 0 ≤ s.absIsoPU := by rw [hpu]; exact hsumsE _
  have hP' : 0 ≤ s'.absIsoPU := by rw [hpu']; exact hsumsM _
  have hA0 : 0 ≤ s.isoNeutralRhoArea := by rw [hA]; exact stdMax_zero_nonneg _
  have hD0 : 0 ≤ s.isoNeutralDeltaBeta := by rw [hD]; exact stdMax_zero_nonneg _
  have hA0' : 0 ≤ s'.isoNeutralRhoArea := by rw [hA']; exact stdMax_zero_nonneg _
  have hD0' : 0 ≤ s'.isoNeutralDeltaBeta := by rw [hD']; exact stdMax_zero_nonneg _
  have hA1 : s.isoNeutralRhoArea ≤ s.isoNeutralRaw := by
    rw [hA]
    exact stdMax_zero_sub_le _ _ hN (mul_nonneg (mul_nonneg hrho0 heaE) (sq_nonneg _))
  have hA1' : s'.isoNeutralRhoArea ≤ s'.isoNeutralRaw := by
    rw [hA']
    exact stdMax_zero_sub_le _ _ hN' (mul_nonneg (mul_nonneg hrho0' heaM) (sq_nonneg _))
  have hD1 : s.isoNeutralDeltaBeta ≤ s.isoNeutralRaw := by
    rw [hD]
    exact stdMax_zero_sub_le _ _ hN (mul_nonneg (by norm_num) hP)
  have hD1' : s'.isoNeutralDeltaBeta ≤ s'.isoNeutralRaw := by
    rw [hD']
    exact stdMax_zero_sub_le _ _ hN' (mul_nonneg (by norm_num) hP')
  rw [hrec, hrec']
  refine ⟨⟨_, _, _, _, rfl, rfl, rfl, rfl, ?_, ?_, ?_, ?_⟩,
    ⟨_, _, _, _, rfl, rfl, rfl, rfl, ?_, ?_, ?_, ?_⟩⟩ <;> linarith

theorem rho_eq_rhoOf (event : Option Event) (rho : ℚ)
    (h1 : ∀ ev, event = some ev → rho = getRho ev) (h2 : event = none → rho = 0) :
    rho = rhoOf event := by
  cases event with
  | none => exact h2 rfl
  | some ev => exact h1 ev rfl

/-- The rhoArea contribution of a valid electron does not increase with rho. -/
theorem electron_rhoArea_antitone (self : DictElectronMiniIsolation) (e : Electron)
    (sc : SuperCluster) (event1 event2 : Option Event) (h : e.superCluster = some sc)
    (hea : 0 ≤ self.m_ea.getEffectiveArea sc.eta)
    (hans : ∀ q, self.m_isoComp.answer event1 q = self.m_isoComp.answer event2 q)
    (hle : rhoOf event1 ≤ rhoOf event2) :
    ∃ n1 n2 : ℚ,
      (self.evaluate (some e) event1).1.get "miniIso_AbsNeutral_rhoArea" = some (.fin n1) ∧
      (self.evaluate (some e) event2).1.get "miniIso_AbsNeutral_rhoArea" = some (.fin n2) ∧
      n2 ≤ n1 := by
  obtain ⟨R, rho, s, hrec, hR, hr1, hr2, -, -, hph, hnh, hraw, -, hA, -, -⟩ :=
    electron_valid self e sc event1 h
  obtain ⟨R', rho', s', hrec', hR', hr1', hr2', -, -, hph', hnh', hraw', -, hA', -, -⟩ :=
    electron_valid self e sc event2 h
  have hRR : R' = R := by rw [hR, hR']
  subst hRR
  have e1 : rho = rhoOf event1 := rho_eq_rhoOf _ _ hr1 hr2
  have e2 : rho' = rhoOf event2 := rho_eq_rhoOf _ _ hr1' hr2'
  have hN : s'.isoNeutralRaw = s.isoNeutralRaw := by
    rw [hraw, hraw', hph, hph', hnh, hnh', hans, hans]
  refine ⟨_, _, by rw [hrec]; rfl, by rw [hrec']; rfl, ?_⟩
  rw [hA, hA', hN]
  apply stdMax_zero_mono
  have hc : 0 ≤ self.m_ea.getEffectiveArea sc.eta * (R' / 0.3) ^ 2 :=
    mul_nonneg hea (sq_nonneg _)
  have : rho * self.m_ea.getEffectiveArea sc.eta * (R' / 0.3) ^ 2
      ≤ rho' * self.m_ea.getEffectiveArea sc.eta * (R' / 0.3) ^ 2 := by
    rw [mul_assoc, mul_assoc]
    exact mul_le_mul_of_nonneg_right (by rw [e1, e2]; exact hle) hc
  linarith

/-- The rhoArea contribution of a valid muon does not increase with rho. -/
theorem muon_rhoArea_antitone (self : DictMuonMiniIsolation) (mu : Muon)
    (event1 event2 : Option Event)
    (hea : 0 ≤ self.m_ea.getEffectiveArea mu.eta)
    (hans : ∀ q, self.m_isoComp.answer event1 q = self.m_isoComp.answer event2 q)
    (hle : rhoOf event1 ≤ rhoOf event2) :
    ∃ n1 n2 : ℚ,
      (self.evaluate (some mu) event1).1.get "miniIso_AbsNeutral_rhoArea" = some (.fin n1) ∧
      (self.evaluate (some mu) event2).1.get "miniIso_AbsNeutral_rhoArea" = some (.fin n2) ∧
      n2 ≤ n1 := by
  obtain ⟨R, rho, s, hrec, hR, hr1, hr2, -, -, hraw, -, hA, -, -⟩ :=
    muon_valid self mu event1
  obtain ⟨R', rho', s', hrec', hR', hr1', hr2', -, -, hraw', -, hA', -, -⟩ :=
    muon_valid self mu event2
  have hRR : R' = R := by rw [hR, hR']
  subst hRR
  have e1 : rho = rhoOf event1 := rho_eq_rhoOf _ _ hr1 hr2
  have e2 : rho' = rhoOf event2 := rho_eq_rhoOf _ _ hr1' hr2'
  have hN : s'.isoNeutralRaw = s.isoNeutralRaw := by rw [hraw, hraw', hans]
  refine ⟨_, _, by rw [hrec]; rfl, by rw [hrec']; rfl, ?_⟩
  rw [hA, hA', hN]
  apply stdMax_zero_mono
  have hc : 0 ≤ self.m_ea.getEffectiveArea mu.eta * (R' / 0.3) ^ 2 :=
    mul_nonneg hea (sq_nonneg _)
  have : rho * self.m_ea.getEffectiveArea mu.eta * (R' / 0.3) ^ 2
      ≤ rho' * self.m_ea.getEffectiveArea mu.eta * (R' / 0.3) ^ 2 := by
    rw [mul_assoc, mul_assoc]
    exact mul_le_mul_of_nonneg_right (by rw [e1, e2]; exact hle) hc
  linarith

/-- The deltaBeta contribution of a valid electron does not increase with the pileup
sum. -/
theorem electron_deltaBeta_antitone (self other : DictElectronMiniIsolation) (e : Electron)
    (sc : SuperCluster) (event : Option Event) (h : e.superCluster = some sc)
    (hans : ∀ q, q.kind = .photonAbsIsoRaw ∨ q.kind = .neutralHadAbsIsoRaw →
      self.m_isoComp.answer event q = other.m_isoComp.answer event q) :
    ∃ pu1 pu2 d1 d2 : ℚ,
      (self.evaluate (some e) event).1.get "miniIso_AbsPU" = some (.fin pu1) ∧
      (other.evaluate (some e) event).1.get "miniIso_AbsPU" = some (.fin pu2) ∧
      (self.evaluate (some e) event).1.get "miniIso_AbsNeutral_deltaBeta" = some (.fin d1) ∧
      (other.evaluate (some e) event).1.get "miniIso_AbsNeutral_deltaBeta" = some (.fin d2) ∧
      (pu1 ≤ pu2 → d2 ≤ d1) := by
  obtain ⟨R, rho, s, hrec, hR, -, -, -, -, hph, hnh, hraw, -, -, hD, -⟩ :=
    electron_valid self e sc event h
  obtain ⟨R', rho', s', hrec', hR', -, -, -, -, hph', hnh', hraw', -, -, hD', -⟩ :=
    electron_valid other e sc event h
  have hRR : R' = R := by rw [hR, hR']
  subst hRR
  have hN : s'.isoNeutralRaw = s.isoNeutralRaw := by
    rw [hraw, hraw', hph, hph', hnh, hnh', hans _ (Or.inl rfl), hans _ (Or.inr rfl)]
  refine ⟨_, _, _, _, by rw [hrec]; rfl, by rw [hrec']; rfl, by rw [hrec]; rfl,
    by rw [hrec']; rfl, ?_⟩
  intro hle
  rw [hD, hD', hN]
  apply stdMax_zero_mono
  linarith

/-- The deltaBeta contribution of a valid muon does not increase with the pileup sum. -/
theorem muon_deltaBeta_antitone (self other : DictMuonMiniIsolation) (mu : Muon)
    (event : Option Event)
    (hans : ∀ q, q.kind = .neutralAbsIsoRaw →
      self.m_isoComp.answer event q = other.m_isoComp.answer event q) :
    ∃ pu1 pu2 d1 d2 : ℚ,
      (self.evaluate (some mu) event).1.get "miniIso_AbsPU" = some (.fin pu1) ∧
      (other.evaluate (some mu) event).1.get "miniIso_AbsPU" = some (.fin pu2) ∧
      (self.evaluate (some mu) event).1.get "miniIso_AbsNeutral_deltaBeta" = some (.fin d1) ∧
      (other.evaluate (some mu) event).1.get "miniIso_AbsNeutral_deltaBeta" = some (.fin d2) ∧
      (pu1 ≤ pu2 → d2 ≤ d1) := by
  obtain ⟨R, rho, s, hrec, hR, -, -, -, -, hraw, -, -, hD, -⟩ := muon_valid self mu event
  obtain ⟨R', rho', s', hrec', hR', -, -, -, -, hraw', -, -, hD', -⟩ :=
    muon_valid other mu event
  have hRR : R' = R := by rw [hR, hR']
  subst hRR
  have hN : s'.isoNeutralRaw = s.isoNeutralRaw := by
    rw [hraw, hraw', hans _ rfl]
  refine ⟨_, _, _, _, by rw [hrec]; rfl, by rw [hrec']; rfl, by rw [hrec]; rfl,
    by rw [hrec']; rfl, ?_⟩
  intro hle
  rw [hD, hD', hN]
  apply stdMax_zero_mono
  linarith

/-- C20, the order of the schemes. For every valid candidate (electron or muon) whose sums
are all non-negative, with rho ≥ 0 and effective area ≥ 0:
`miniIso_AbsCharged ≤ miniIso_Abs_rhoArea ≤ miniIso_Abs_raw` and
`miniIso_AbsCharged ≤ miniIso_Abs_deltaBeta ≤ miniIso_Abs_raw`. Moreover
`miniIso_AbsNeutral_rhoArea` does not increase with rho (a second run on an event of larger
pileup density, the sums being the same), and `miniIso_AbsNeutral_deltaBeta` does not
increase with `miniIso_AbsPU` (a second run with another computer that returns the same
raw neutral sums). -/
theorem C20_scheme_ordering (selfE : DictElectronMiniIsolation)
    (selfM : DictMuonMiniIsolation) (e : Electron) (sc : SuperCluster) (mu : Muon)
    (event : Option Event) (h : e.superCluster = some sc)
    (hsumsE : ∀ q, 0 ≤ selfE.m_isoComp.answer event q)
    (hsumsM : ∀ q, 0 ≤ selfM.m_isoComp.answer event q)
    (hrho : ∀ ev, event = some ev → 0 ≤ getRho ev)
    (heaE : 0 ≤ selfE.m_ea.getEffectiveArea sc.eta)
    (heaM : 0 ≤ selfM.m_ea.getEffectiveArea mu.eta) :
    (∃ ch aA aD aR : ℚ,
      (selfE.evaluate (some e) event).1.get "miniIso_AbsCharged" = some (.fin ch) ∧
      (selfE.evaluate (some e) event).1.get "miniIso_Abs_rhoArea" = some (.fin aA) ∧
      (selfE.evaluate (some e) event).1.get "miniIso_Abs_deltaBeta" = some (.fin aD) ∧
      (selfE.evaluate (some e) event).1.get "miniIso_Abs_raw" = some (.fin aR) ∧
      ch ≤ aA ∧ aA ≤ aR ∧ ch ≤ aD ∧ aD ≤ aR) ∧
    (∃ ch aA aD aR : ℚ,
      (selfM.evaluate (some mu) event).1.get "miniIso_AbsCharged" = some (.fin ch) ∧
      (selfM.evaluate (some mu) event).1.get "miniIso_Abs_rhoArea" = some (.fin aA) ∧
      (selfM.evaluate (some mu) event).1.get "miniIso_Abs_deltaBeta" = some (.fin aD) ∧
      (selfM.evaluate (some mu) event).1.get "miniIso_Abs_raw" = some (.fin aR) ∧
      ch ≤ aA ∧ aA ≤ aR ∧ ch ≤ aD ∧ aD ≤ aR) ∧
    (∀ event2 : Option Event,
      (∀ q, selfE.m_isoComp.answer event q = selfE.m_isoComp.answer event2 q) →
      rhoOf event ≤ rhoOf event2 →
      ∃ n1 n2 : ℚ,
        (selfE.evaluate (some e) event).1.get "miniIso_AbsNeutral_rhoArea"
          = some (.fin n1) ∧
        (selfE.evaluate (some e) event2).1.get "miniIso_AbsNeutral_rhoArea"
          = some (.fin n2) ∧
        n2 ≤ n1) ∧
    (∀ event2 : Option Event,
      (∀ q, selfM.m_isoComp.answer event q = selfM.m_isoComp.answer event2 q) →
      rhoOf event ≤ rhoOf event2 →
      ∃ n1 n2 : ℚ,
        (selfM.evaluate (some mu) event).1.get "miniIso_AbsNeutral_rhoArea"
          = some (.fin n1) ∧
        (selfM.evaluate (some mu) event2).1.get "miniIso_AbsNeutral_rhoArea"
          = some (.fin n2) ∧
        n2 ≤ n1) ∧
    (∀ other : DictElectronMiniIsolation,
      (∀ q, q.kind = .photonAbsIsoRaw ∨ q.kind = .neutralHadAbsIsoRaw →
        selfE.m_isoComp.answer event q = other.m_isoComp.answer event q) →
      ∃ pu1 pu2 d1 d2 : ℚ,
        (selfE.evaluate (some e) event).1.get "miniIso_AbsPU" = some (.fin pu1) ∧
        (other.evaluate (some e) event).1.get "miniIso_AbsPU" = some (.fin pu2) ∧
        (selfE.evaluate (some e) event).1.get "miniIso_AbsNeutral_deltaBeta"
          = some (.fin d1) ∧
        (other.evaluate (some e) event).1.get "miniIso_AbsNeutral_deltaBeta"
          = some (.fin d2) ∧
        (pu1 ≤ pu2 → d2 ≤ d1)) ∧
    (∀ other : DictMuonMiniIsolation,
      (∀ q, q.kind = .neutralAbsIsoRaw →
        selfM.m_isoComp.answer event q = other.m_isoComp.answer event q) →
      ∃ pu1 pu2 d1 d2 : ℚ,
        (selfM.evaluate (some mu) event).1.get "miniIso_AbsPU" = some (.fin pu1) ∧
        (other.evaluate (some mu) event).1.get "miniIso_AbsPU" = some (.fin pu2) ∧
        (selfM.evaluate (some mu) event).1.get "miniIso_AbsNeutral_deltaBeta"
          = some (.fin d1) ∧
        (other.evaluate (some mu) event).1.get "miniIso_AbsNeutral_deltaBeta"
          = some (.fin d2) ∧
        (pu1 ≤ pu2 → d2 ≤ d1)) :=
  ⟨(scheme_ordering selfE selfM e sc mu event h hsumsE hsumsM hrho heaE heaM).1,
    (scheme_ordering selfE selfM e sc mu event h hsumsE hsumsM hrho heaE heaM).2,
    fun event2 hans hle => electron_rhoArea_antitone selfE e sc event event2 h heaE hans hle,
    fun event2 hans hle => muon_rhoArea_antitone selfM mu event event2 heaM hans hle,
    fun other hans => electron_deltaBeta_antitone selfE other e sc event h hans,
    fun other hans => muon_deltaBeta_antitone selfM other mu event hans⟩

/-- C20 at sample inputs: a barrel electron and a muon of pt 100 in the sample event
(rho = 2, effective area 1/10, the sample sums, all positive); for the electron
`1 ≤ 269/45 ≤ 6` and `1 ≤ 4 ≤ 6`, and a second event of pileup density 7 does not give a
larger rhoArea contribution. -/
theorem C20_scheme_ordering_witness :
    (barrelElectron 100).superCluster = some sampleSC ∧
    (∀ q, 0 ≤ sampleElectronTool.m_isoComp.answer (some sampleEvent) q) ∧
    (∀ ev, some sampleEvent = some ev → 0 ≤ getRho ev) ∧
    0 ≤ sampleElectronTool.m_ea.getEffectiveArea sampleSC.eta ∧
    (∃ ch aA aD aR : ℚ,
      (sampleElectronTool.evaluate (some (barrelElectron 100)) (some sampleEvent)).1.get
        "miniIso_AbsCharged" = some (.fin ch) ∧
      (sampleElectronTool.evaluate (some (barrelElectron 100)) (some sampleEvent)).1.get
        "miniIso_Abs_rhoArea" = some (.fin aA) ∧
      (sampleElectronTool.evaluate (some (barrelElectron 100)) (some sampleEvent)).1.get
        "miniIso_Abs_deltaBeta" = some (.fin aD) ∧
      (sampleElectronTool.evaluate (some (barrelElectron 100)) (some sampleEvent)).1.get
        "miniIso_Abs_raw" = some (.fin aR) ∧
      ch ≤ aA ∧ aA ≤ aR ∧ ch ≤ aD ∧ aD ≤ aR) ∧
    (sampleElectronTool.evaluate (some (barrelElectron 100)) (some sampleEvent)).1.get
      "miniIso_Abs_rhoArea" = some (.fin (269 / 45)) ∧
    (∃ n1 n2 : ℚ,
      (sampleElectronTool.evaluate (some (barrelElectron 100)) (some sampleEvent)).1.get
        "miniIso_AbsNeutral_rhoArea" = some (.fin n1) ∧
      (sampleElectronTool.evaluate (some (barrelElectron 100)) (some ⟨2, 7⟩)).1.get
        "miniIso_AbsNeutral_rhoArea" = some (.fin n2) ∧
      n2 ≤ n1) := by
  have hsE : ∀ q, 0 ≤ sampleElectronTool.m_isoComp.answer (some sampleEvent) q := by
    intro q
    simp only [sampleElectronTool, sampleAnswer]
    cases q.kind <;> norm_num
  have hsM : ∀ q, 0 ≤ sampleMuonTool.m_isoComp.answer (some sampleEvent) q := by
    intro q
    simp only [sampleMuonTool, sampleAnswer]
    cases q.kind <;> norm_num
  have hrho : ∀ ev, some sampleEvent = some ev → 0 ≤ getRho ev := by
    intro ev hev
    injection hev with hev
    subst hev
    norm_num [getRho, sampleEvent]
  have heaE : 0 ≤ sampleElectronTool.m_ea.getEffectiveArea sampleSC.eta := by
    norm_num [sampleElectronTool]
  have heaM : 0 ≤ sampleMuonTool.m_ea.getEffectiveArea (sampleMuon 100).eta := by
    norm_num [sampleMuonTool]
  have w := C20_scheme_ordering sampleElectronTool sampleMuonTool (barrelElectron 100)
    sampleSC (sampleMuon 100) (some sampleEvent) rfl hsE hsM hrho heaE heaM
  exact ⟨rfl, hsE, hrho, heaE, w.1, by decide!,
    w.2.2.1 (some ⟨2, 7⟩) (fun _ => rfl) (by norm_num [rhoOf, getRho, sampleEvent])⟩

end TTWAnalysis
